import Mathlib

/-!
Verification of the ORC JIT symbol-resolution core specification.

The repository ships the unit tests of the ORC core
(`llvm/unittests/ExecutionEngine/Orc/CoreAPIsTest.cpp`) but not the core
implementation itself (`llvm/lib/ExecutionEngine/Orc/Core.cpp` is absent from
the sources).  Following the spec-modelling rule, the definitions below are a
shallow embedding of the core built from the specification's own words
(data model of section 3, operations of section 4, error taxonomy of
section 7).  Symbol names and dylib identifiers are interned handles, so they
are represented by natural numbers; addresses are opaque integers; callbacks
are represented by an observable event log recorded in the session state.
-/

set_option autoImplicit false

namespace OrcCore

/-- Modelled from the spec: symbol flags, a bitset with at least
`Exported`, `Weak` and `Callable` (spec section 3, "Symbol Flags"). -/
structure SymbolFlags where
  exported : Bool
  weak : Bool
  callable : Bool
deriving DecidableEq

/-- Modelled from the spec: an evaluated symbol, a pair of an opaque address
and flags (spec section 3, "Evaluated Symbol"). -/
structure EvaluatedSymbol where
  address : Nat
  flags : SymbolFlags
deriving DecidableEq

/-- Modelled from the spec: the lifecycle stage of a symbol record
(spec section 3: NeverSearched, Materializing, Resolved, Ready; failure is a
separate terminal flag on the record). -/
inductive SymbolStage where
  | neverSearched
  | materializing
  | resolved
  | ready
deriving DecidableEq

/-- Numeric rank of a lifecycle stage; stages only move forward. -/
def SymbolStage.rank : SymbolStage → Nat
  | .neverSearched => 0
  | .materializing => 1
  | .resolved => 2
  | .ready => 3

/-- Modelled from the spec: the error taxonomy of section 7. -/
inductive CoreError where
  | unknownDylib (d : Nat)
  | symbolsNotFound (names : List Nat)
  | duplicateDefinition (n : Nat)
  | symbolsCouldNotBeRemoved (names : List Nat)
  | failedToMaterialize (names : List Nat)
  | generatorError (code : Nat)
deriving DecidableEq

/-- Outcome delivered to a query's completion callback: a success map from
names to evaluated symbols, or a structured error. -/
inductive QueryResult where
  | success (syms : List (Nat × EvaluatedSymbol))
  | failure (e : CoreError)
deriving DecidableEq

/-- Observable events of a run: completion callbacks, `materialize`
invocations, `discard` notifications and MU destruction. -/
inductive Event where
  | queryCompleted (qid : Nat) (r : QueryResult)
  | materializeInvoked (m : Nat)
  | discarded (m : Nat) (n : Nat)
  | muDestroyed (m : Nat)
deriving DecidableEq

/-- Modelled from the spec: the behaviour of a materialization unit's
`materialize` entry point.  The tests drive MUs that either stash their
responsibility for later manual `notify_resolved` and `notify_emitted` calls
(`capture`), resolve and emit immediately, or fail materialization. -/
inductive MUBehavior where
  | capture
  | resolveEmit (defs : List (Nat × EvaluatedSymbol))
  | failOnMaterialize
deriving DecidableEq

/-- Modelled from the spec: a definition generator's `try_generate`
behaviour — install absolute symbols for claimed names, or return an error
that must propagate verbatim to the triggering operation (spec section 4.4
and error kind GeneratorError). -/
inductive GenBehavior where
  | installAbsolute (defs : List (Nat × EvaluatedSymbol))
  | genFail (e : CoreError)
deriving DecidableEq

/-- Modelled from the spec: a per-name, per-DL symbol record (spec section 3,
"Symbol Record"): flags, optional address, lifecycle stage, owning-MU back
link, alias source (for alias definitions), emitted flag, failed flag and
pending dependencies used by the readiness engine. -/
structure SymbolRecord where
  flags : SymbolFlags
  address : Option Nat
  stage : SymbolStage
  muId : Option Nat
  aliasTo : Option Nat
  emitted : Bool
  failed : Bool
  deps : List (Nat × Nat)
deriving DecidableEq

/-- Modelled from the spec: the engine-side state of a materialization unit:
declared symbol-flags map, the names it still owns (shrinks under discard),
its behaviour and its owning dylib. -/
structure MUState where
  declared : List (Nat × SymbolFlags)
  remaining : List Nat
  behavior : MUBehavior
  dylib : Nat
deriving DecidableEq

/-- Modelled from the spec: a pending asynchronous query: identifier, claimed
targets as (dylib, name) pairs and the required stage (spec section 3,
"Query"). -/
structure Query where
  qid : Nat
  targets : List (Nat × Nat)
  stage : SymbolStage
deriving DecidableEq

/-- Modelled from the spec: a dynamic library: a symbol table and an ordered
generator list (spec section 3, "Dynamic Library"). -/
structure Dylib where
  symbols : List (Nat × SymbolRecord)
  generators : List GenBehavior
deriving DecidableEq

/-- Modelled from the spec: the execution session state: the dylibs, the
engine-side MU states, the pending queries, the observable event log and
fresh-identifier counters. -/
structure SessionState where
  dylibs : List (Nat × Dylib)
  mus : List (Nat × MUState)
  queries : List Query
  events : List Event
  nextQueryId : Nat
  nextMuId : Nat
deriving DecidableEq

/-! ### Association-list helpers -/

/-- First value bound to key `k`. -/
def alookup {α : Type} (k : Nat) : List (Nat × α) → Option α
  | [] => none
  | (k', v) :: t => if k' = k then some v else alookup k t

/-- Remove every binding of key `k`. -/
def aerase {α : Type} (k : Nat) (l : List (Nat × α)) : List (Nat × α) :=
  l.filter (fun p => decide (p.1 ≠ k))

/-- Bind `k` to `v`, dropping previous bindings of `k`. -/
def aset {α : Type} (k : Nat) (v : α) (l : List (Nat × α)) : List (Nat × α) :=
  (k, v) :: aerase k l

/-! ### State access helpers -/

/-- The symbol record for name `n` in dylib `d`, if any. -/
def recordOf (st : SessionState) (d n : Nat) : Option SymbolRecord :=
  match alookup d st.dylibs with
  | some dl => alookup n dl.symbols
  | none => none

/-- Install (or overwrite) the record for name `n` in dylib `d`. -/
def setRecord (st : SessionState) (d n : Nat) (r : SymbolRecord) :
    SessionState :=
  match alookup d st.dylibs with
  | some dl =>
      { st with dylibs := aset d { dl with symbols := aset n r dl.symbols }
                            st.dylibs }
  | none => st

/-- Apply `f` to the record for `n` in `d` when it exists. -/
def updateRecord (st : SessionState) (d n : Nat)
    (f : SymbolRecord → SymbolRecord) : SessionState :=
  match recordOf st d n with
  | some r => setRecord st d n (f r)
  | none => st

/-- Erase the record for `n` in `d`. -/
def eraseRecord (st : SessionState) (d n : Nat) : SessionState :=
  match alookup d st.dylibs with
  | some dl =>
      { st with dylibs := aset d { dl with symbols := aerase n dl.symbols }
                            st.dylibs }
  | none => st

/-- Append an observable event to the log. -/
def addEvent (st : SessionState) (e : Event) : SessionState :=
  { st with events := e :: st.events }

/-! ### Definition admission, discard and removal -/

/-- Modelled from the spec (the ORC core sources are absent from this
repository): notify the owning MU of record `r` that name `n` has been
discarded; an MU that has thereby lost all of its names is destroyed
(spec sections 4.2 and 4.3). -/
def discardName (st : SessionState) (n : Nat) (r : SymbolRecord) :
    SessionState :=
  match r.muId with
  | none => st
  | some m =>
    match alookup m st.mus with
    | none => st
    | some mu =>
      let rem' := mu.remaining.filter (fun x => decide (x ≠ n))
      if rem'.isEmpty then
        { st with mus := aerase m st.mus,
                  events := .muDestroyed m :: .discarded m n :: st.events }
      else
        { st with mus := aset m { mu with remaining := rem' } st.mus,
                  events := .discarded m n :: st.events }

/-- Does name `n` conflict with an existing definition?  A prior definition
may only be superseded when it is Weak and has not yet begun materializing
(spec section 3, invariant 1, and section 4.2 `define`). -/
def defineConflict (dl : Dylib) (n : Nat) : Bool :=
  match alookup n dl.symbols with
  | some r => !(r.flags.weak && r.stage == .neverSearched)
  | none => false

/-- A fresh record for an absolute symbol (spec section 4.2, define (i)):
absolute definitions carry a concrete address and are immediately ready. -/
def absRecord (sym : EvaluatedSymbol) : SymbolRecord :=
  { flags := sym.flags, address := some sym.address, stage := .ready,
    muId := none, aliasTo := none, emitted := true, failed := false,
    deps := [] }

/-- Install one absolute definition, superseding (and discarding) a prior
weak unmaterialized definition when present. -/
def installAbsOne (st : SessionState) (d n : Nat) (sym : EvaluatedSymbol) :
    SessionState :=
  match recordOf st d n with
  | some r => setRecord (discardName st n r) d n (absRecord sym)
  | none => setRecord st d n (absRecord sym)

/-- Modelled from the spec: `define` with a map of name → evaluated symbol
(spec section 4.2, define (i)).  Fails with DuplicateDefinition unless every
prior definition of a supplied name is Weak and has not begun materializing,
in which case the new definition replaces it and the prior MU is notified of
discard. -/
def defineAbsolute (st : SessionState) (dlId : Nat)
    (defs : List (Nat × EvaluatedSymbol)) : Except CoreError SessionState :=
  match alookup dlId st.dylibs with
  | none => .error (.unknownDylib dlId)
  | some dl =>
    match defs.find? (fun p => defineConflict dl p.1) with
    | some p => .error (.duplicateDefinition p.1)
    | none =>
        .ok (defs.foldl (fun s p => installAbsOne s dlId p.1 p.2) st)

/-- A fresh record for a name declared by a not-yet-run MU. -/
def lazyRecord (fl : SymbolFlags) (m : Nat) : SymbolRecord :=
  { flags := fl, address := none, stage := .neverSearched, muId := some m,
    aliasTo := none, emitted := false, failed := false, deps := [] }

/-- Install one MU-declared name, superseding a prior weak unmaterialized
definition when present. -/
def installLazyOne (st : SessionState) (d : Nat) (m : Nat) (n : Nat)
    (fl : SymbolFlags) : SessionState :=
  match recordOf st d n with
  | some r => setRecord (discardName st n r) d n (lazyRecord fl m)
  | none => setRecord st d n (lazyRecord fl m)

/-- Modelled from the spec: `define` with a materialization unit declaring a
symbol-flags map (spec section 4.2, define (ii)); admission rules are the
same as for absolute definitions. -/
def defineMU (st : SessionState) (dlId : Nat)
    (declared : List (Nat × SymbolFlags)) (behavior : MUBehavior) :
    Except CoreError SessionState :=
  match alookup dlId st.dylibs with
  | none => .error (.unknownDylib dlId)
  | some dl =>
    match declared.find? (fun p => defineConflict dl p.1) with
    | some p => .error (.duplicateDefinition p.1)
    | none =>
        let m := st.nextMuId
        let st1 := { st with nextMuId := m + 1,
                             mus := aset m { declared := declared,
                                             remaining := declared.map (·.1),
                                             behavior := behavior,
                                             dylib := dlId } st.mus }
        .ok (declared.foldl (fun s p => installLazyOne s dlId m p.1 p.2) st1)

/-- A fresh record for an alias definition: the name resolves to the address
of its source symbol (spec section 4.2, define (iii)). -/
def aliasRecord (fl : SymbolFlags) (src : Nat) : SymbolRecord :=
  { flags := fl, address := none, stage := .neverSearched, muId := none,
    aliasTo := some src, emitted := false, failed := false, deps := [] }

/-- Install one alias, superseding a prior weak unmaterialized definition. -/
def installAliasOne (st : SessionState) (d : Nat) (n : Nat) (src : Nat)
    (fl : SymbolFlags) : SessionState :=
  match recordOf st d n with
  | some r => setRecord (discardName st n r) d n (aliasRecord fl src)
  | none => setRecord st d n (aliasRecord fl src)

/-- Modelled from the spec: `define` with aliases, a map
target → (source name, flags) resolving via lookup (spec section 4.2,
define (iii)). -/
def defineAliases (st : SessionState) (dlId : Nat)
    (aliases : List (Nat × Nat × SymbolFlags)) :
    Except CoreError SessionState :=
  match alookup dlId st.dylibs with
  | none => .error (.unknownDylib dlId)
  | some dl =>
    match aliases.find? (fun p => defineConflict dl p.1) with
    | some p => .error (.duplicateDefinition p.1)
    | none =>
        .ok (aliases.foldl
          (fun s p => installAliasOne s dlId p.1 p.2.1 p.2.2) st)

/-- The per-name step shared by every `define` variant: install record `nr`
for name `k`, superseding (and discarding on its MU) a prior definition when
one is present.  `installAbsOne`, `installLazyOne` and `installAliasOne` are
instances of this step at their respective fresh records. -/
def installStep (dlId : Nat) (s : SessionState) (k : Nat)
    (nr : SymbolRecord) : SessionState :=
  match recordOf s dlId k with
  | some r => setRecord (discardName s k r) dlId k nr
  | none => setRecord s dlId k nr

/-- The intermediate state of `defineMU` just after registering the new MU
(with identifier `st.nextMuId`), before its declared names are installed. -/
def muBase (st : SessionState) (dlId : Nat)
    (declared : List (Nat × SymbolFlags)) (behavior : MUBehavior) :
    SessionState :=
  { st with
    nextMuId := st.nextMuId + 1,
    mus := aset st.nextMuId
      { declared := declared, remaining := declared.map (·.1),
        behavior := behavior, dylib := dlId } st.mus }

/-- Modelled from the spec: `remove(names)` (spec section 4.2).  Unknown
names fail with SymbolsNotFound; names still materializing fail with
SymbolsCouldNotBeRemoved; otherwise every named symbol is erased, names
whose MU has not run are discarded on that MU, and an MU that has thereby
lost all of its names is destroyed.  The error cases return before any
mutation, so the dylib state is unchanged there.  `removeOne` is the
per-name step: erase the record, discarding it on its MU when the MU has
not yet run. -/
def removeOne (s : SessionState) (dlId n : Nat) : SessionState :=
  match recordOf s dlId n with
  | some r =>
      eraseRecord
        (if r.stage == .neverSearched then discardName s n r else s) dlId n
  | none => s

/-- Is this name currently materializing in the dylib? -/
def materializingIn (dl : Dylib) (n : Nat) : Bool :=
  match alookup n dl.symbols with
  | some r => r.stage == .materializing
  | none => false

def removeSyms (st : SessionState) (dlId : Nat) (names : List Nat) :
    Except CoreError SessionState :=
  match alookup dlId st.dylibs with
  | none => .error (.unknownDylib dlId)
  | some dl =>
    let missing := names.filter (fun n => (alookup n dl.symbols).isNone)
    if missing.isEmpty then
      let mat := names.filter (fun n => materializingIn dl n)
      if mat.isEmpty then
        .ok (names.foldl (fun s n => removeOne s dlId n) st)
      else .error (.symbolsCouldNotBeRemoved mat)
    else .error (.symbolsNotFound missing)

/-! ### Queries and the readiness engine -/

/-- Has this record reached the wanted stage?  A failed record never
satisfies a query through the success path. -/
def stageReached (r : SymbolRecord) (want : SymbolStage) : Bool :=
  decide (want.rank ≤ r.stage.rank) && !r.failed

/-- All of the query's targets have reached its required stage. -/
def querySatisfied (st : SessionState) (q : Query) : Bool :=
  q.targets.all (fun t =>
    match recordOf st t.1 t.2 with
    | some r => stageReached r q.stage
    | none => false)

/-- The success map delivered to a fulfilled query: each target name mapped
to its resolved address and flags. -/
def buildResult (st : SessionState) (q : Query) :
    List (Nat × EvaluatedSymbol) :=
  q.targets.map (fun t =>
    match recordOf st t.1 t.2 with
    | some r => (t.2, EvaluatedSymbol.mk (r.address.getD 0) r.flags)
    | none => (t.2, EvaluatedSymbol.mk 0 (SymbolFlags.mk false false false)))

/-- Modelled from the spec: deliver the completion callback of every pending
query whose targets have all reached its required stage, and drop those
queries (spec sections 4.6 and 4.5 step 3). -/
def tryFireQueries (st : SessionState) : SessionState :=
  let fired := st.queries.filter (fun q => querySatisfied st q)
  let kept := st.queries.filter (fun q => !querySatisfied st q)
  { st with
    queries := kept,
    events :=
      fired.map (fun q => Event.queryCompleted q.qid
        (QueryResult.success (buildResult st q))) ++ st.events }

/-- Modelled from the spec: `MR.notify_resolved(map)` — record the supplied
address for each name, transition those records to Resolved and fulfil
queries waiting at Resolved (spec section 4.3). -/
def notifyResolved (st : SessionState) (m : Nat)
    (defs : List (Nat × EvaluatedSymbol)) : SessionState :=
  match alookup m st.mus with
  | none => st
  | some mu =>
    tryFireQueries (defs.foldl (fun s p =>
      updateRecord s mu.dylib p.1 (fun r =>
        { r with address := some p.2.address, stage := .resolved })) st)

/-- Is the record at target `t` already Ready? -/
def isReadyAt (st : SessionState) (t : Nat × Nat) : Bool :=
  match recordOf st t.1 t.2 with
  | some r => r.stage == .ready
  | none => false

/-- Pending dependencies of the record at `t`. -/
def depsOf (st : SessionState) (t : Nat × Nat) : List (Nat × Nat) :=
  match recordOf st t.1 t.2 with
  | some r => r.deps
  | none => []

/-- All symbols currently Resolved, Emitted and not failed: the candidates
for the SCC-wise Ready transition (spec section 4.5). -/
def readyCands (st : SessionState) : List (Nat × Nat) :=
  st.dylibs.flatMap (fun p =>
    p.2.symbols.filterMap (fun q =>
      if q.2.stage == .resolved && q.2.emitted && !q.2.failed then
        some (p.1, q.1)
      else none))

/-- One pruning pass: drop every candidate that has a pending dependency
which is neither a surviving candidate nor already Ready. -/
def pruneStep (st : SessionState) (c : List (Nat × Nat)) :
    List (Nat × Nat) :=
  c.filter (fun t =>
    (depsOf st t).all (fun u => c.contains u || isReadyAt st u))

/-- Iterated pruning; `readyCands.length` passes reach the fixed point. -/
def pruneIter (st : SessionState) : Nat → List (Nat × Nat) → List (Nat × Nat)
  | 0, c => c
  | fuel + 1, c => pruneIter st fuel (pruneStep st c)

/-- Mark every listed symbol Ready. -/
def markReady (st : SessionState) (l : List (Nat × Nat)) : SessionState :=
  l.foldl (fun s t =>
    updateRecord s t.1 t.2 (fun r => { r with stage := .ready })) st

/-- Modelled from the spec: the readiness computation run on emission — the
greatest set of Resolved-and-Emitted symbols whose pending dependencies all
stay inside the set or point at Ready symbols becomes Ready atomically; this
is the SCC fixed point of spec section 4.5, and queries waiting at Ready on
those symbols are then delivered. -/
def updateReadiness (st : SessionState) : SessionState :=
  let cands := readyCands st
  tryFireQueries (markReady st (pruneIter st cands.length cands))

/-- Modelled from the spec: `MR.notify_emitted()` — mark the MU's symbols
Emitted and trigger the SCC-level readiness computation
(spec sections 4.3 and 4.5). -/
def notifyEmitted (st : SessionState) (m : Nat) : SessionState :=
  match alookup m st.mus with
  | none => st
  | some mu =>
    updateReadiness (mu.remaining.foldl (fun s n =>
      updateRecord s mu.dylib n (fun r => { r with emitted := true })) st)

/-- Does query `q` target one of the MU's declared names? -/
def targetsDeclared (d : Nat) (names : List Nat) (q : Query) : Bool :=
  q.targets.any (fun t => t.1 == d && names.contains t.2)

/-- Modelled from the spec: `MR.fail_materialization()` — all declared names
enter the Failed state and every pending query that targets any of them
fails with FailedToMaterialize carrying the full declared set
(spec section 4.3 and error kind FailedToMaterialize). -/
def failMaterialization (st : SessionState) (m : Nat) : SessionState :=
  match alookup m st.mus with
  | none => st
  | some mu =>
    let s := mu.declared.map (·.1)
    let st1 := s.foldl (fun acc n =>
      updateRecord acc mu.dylib n (fun r => { r with failed := true })) st
    { st1 with
      queries := st1.queries.filter (fun q => !targetsDeclared mu.dylib s q),
      events :=
        (st1.queries.filter (fun q => targetsDeclared mu.dylib s q)).map
          (fun q => Event.queryCompleted q.qid
            (QueryResult.failure (.failedToMaterialize s))) ++ st1.events }

/-- Modelled from the spec: `add_dependencies_for_all(deps)` — every name of
this MR comes to depend on the listed (dylib, name set) pairs;
self-dependencies and already-Ready dependencies are filtered out
(spec section 4.3). -/
def addDependenciesForAll (st : SessionState) (m : Nat)
    (deps : List (Nat × List Nat)) : SessionState :=
  match alookup m st.mus with
  | none => st
  | some mu =>
    mu.remaining.foldl (fun s n =>
      updateRecord s mu.dylib n (fun r =>
        { r with deps := r.deps ++ deps.flatMap (fun p =>
            p.2.filterMap (fun x =>
              if p.1 == mu.dylib && x == n then none
              else if isReadyAt s (p.1, x) then none
              else some (p.1, x))) })) st

/-- Modelled from the spec: dispatch of an MU through the (inline)
dispatcher — its names move to Materializing, `materialize` is invoked
exactly once, and the MU's behaviour drives its MR (spec sections 4.1
lookup, 4.3 and section 5 "Dispatcher"). -/
def dispatchMU (st : SessionState) (m : Nat) : SessionState :=
  match alookup m st.mus with
  | none => st
  | some mu =>
    let st1 := mu.remaining.foldl (fun s n =>
      updateRecord s mu.dylib n (fun r =>
        { r with stage := .materializing })) st
    let st2 := addEvent st1 (.materializeInvoked m)
    match mu.behavior with
    | .capture => st2
    | .resolveEmit defs => notifyEmitted (notifyResolved st2 m defs) m
    | .failOnMaterialize => failMaterialization st2 m

/-- Schedule the MU of every claimed name that has not yet begun
materializing (spec section 4.1, lookup). -/
def scheduleMUs (st : SessionState) (claims : List (Nat × Nat)) :
    SessionState :=
  claims.foldl (fun s t =>
    match recordOf s t.1 t.2 with
    | some r =>
        if r.stage == .neverSearched then
          match r.muId with
          | some m => dispatchMU s m
          | none => s
        else s
    | none => s) st

/-! ### Generators, lookupFlags and lookup -/

/-- Is name `n` defined in dylib `d`? -/
def definedIn (st : SessionState) (d n : Nat) : Bool :=
  (recordOf st d n).isSome

/-- Modelled from the spec: consult the ordered generator chain of a dylib
with the set of not-yet-claimed names (spec section 4.4).  A generator
installs its definitions via `define` before claiming, and a generator error
aborts the chain and propagates verbatim (spec section 4.2 add_generator).
Returns the claimed names together with the updated state. -/
def runGenerators (st : SessionState) (dlId : Nat) :
    List GenBehavior → List Nat → SessionState × Except CoreError (List Nat)
  | [], _ => (st, .ok [])
  | g :: rest, rem =>
    if rem.isEmpty then (st, .ok [])
    else
      match g with
      | .genFail e => (st, .error e)
      | .installAbsolute defs =>
        let todo := defs.filter (fun p =>
          rem.contains p.1 && !definedIn st dlId p.1)
        match defineAbsolute st dlId todo with
        | .error e => (st, .error e)
        | .ok st' =>
          let claimed := todo.map (·.1)
          match runGenerators st' dlId rest
              (rem.filter (fun x => !claimed.contains x)) with
          | (st'', .error e) => (st'', .error e)
          | (st'', .ok cl2) => (st'', .ok (claimed ++ cl2))

/-- Modelled from the spec: `lookup_flags(dl, names)` — a mapping from the
queried names that have (or acquire, via generators) a definition to their
declared flags, computed without triggering materialization
(spec section 4.1). -/
def lookupFlags (st : SessionState) (dlId : Nat) (names : List Nat) :
    SessionState × Except CoreError (List (Nat × SymbolFlags)) :=
  match alookup dlId st.dylibs with
  | none => (st, .error (.unknownDylib dlId))
  | some dl =>
    let found := names.filterMap (fun n =>
      (alookup n dl.symbols).map (fun r => (n, r.flags)))
    let rem := names.filter (fun n => (alookup n dl.symbols).isNone)
    match runGenerators st dlId dl.generators rem with
    | (st', .error e) => (st', .error e)
    | (st', .ok claimed) =>
        (st', .ok (found ++ claimed.filterMap (fun n =>
          (recordOf st' dlId n).map (fun r => (n, r.flags)))))

/-- Chase an alias chain inside dylib `d` to a concrete address. -/
def chaseAddr (st : SessionState) (d : Nat) : Nat → Nat → Option Nat
  | 0, _ => none
  | fuel + 1, n =>
    match recordOf st d n with
    | some r =>
        match r.aliasTo with
        | some src => chaseAddr st d fuel src
        | none => r.address
    | none => none

/-- Resolve one claimed alias record: if the transitive source already has
an address, the alias takes that address and becomes ready (spec
section 4.2, define (iii): aliases resolve via a lookup of the source). -/
def resolveAliasAt (st : SessionState) (d n : Nat) : SessionState :=
  match recordOf st d n with
  | some r =>
    match r.aliasTo with
    | some _ =>
      if r.address.isNone then
        match alookup d st.dylibs with
        | some dl =>
          match chaseAddr st d (dl.symbols.length + 1) n with
          | some a =>
              updateRecord st d n (fun r' =>
                { r' with address := some a, stage := .ready,
                          emitted := true })
          | none => st
        | none => st
      else st
    | none => st
  | none => st

/-- Resolve every claimed alias record. -/
def resolveAliases (st : SessionState) (claims : List (Nat × Nat)) :
    SessionState :=
  claims.foldl (fun s t => resolveAliasAt s t.1 t.2) st

/-- Outcome of scanning the search list for one name. -/
inductive ScanOut where
  | claimedBy (d : Nat)
  | nomatch
  | genErr (e : CoreError)
deriving DecidableEq

/-- Is the record visible to a search-list entry?  Non-exported definitions
are visible only when the entry's match-non-exported boolean is set
(spec section 6, "Search list"). -/
def visibleRec (b : Bool) (r : SymbolRecord) : Bool :=
  r.flags.exported || b

/-- Modelled from the spec: the per-name scan of the search list — each DL is
tried in caller order; the first visible definition claims the name, and
otherwise the DL's generators are tried and may install definitions and
claim it (spec section 4.1, lookup). -/
def scanName (st : SessionState) (n : Nat) :
    List (Nat × Bool) → SessionState × ScanOut
  | [] => (st, .nomatch)
  | (d, b) :: rest =>
    match alookup d st.dylibs with
    | none => scanName st n rest
    | some dl =>
      match alookup n dl.symbols with
      | some r =>
          if visibleRec b r then (st, .claimedBy d) else scanName st n rest
      | none =>
        match runGenerators st d dl.generators [n] with
        | (st', .error e) => (st', .genErr e)
        | (st', .ok claimed) =>
            if claimed.contains n then (st', .claimedBy d)
            else scanName st' n rest

/-- Modelled from the spec: the claim phase of a lookup — scan the search
list for each requested name, collecting claimed (dylib, name) pairs and
unmatched names; a generator error aborts the phase (spec section 4.1). -/
def claimPhase (st : SessionState) (sl : List (Nat × Bool)) :
    List Nat →
    SessionState × Except CoreError (List (Nat × Nat) × List Nat)
  | [] => (st, .ok ([], []))
  | n :: rest =>
    match scanName st n sl with
    | (st', .genErr e) => (st', .error e)
    | (st', .claimedBy d) =>
      match claimPhase st' sl rest with
      | (st'', .error e) => (st'', .error e)
      | (st'', .ok (cl, un)) => (st'', .ok ((d, n) :: cl, un))
    | (st', .nomatch) =>
      match claimPhase st' sl rest with
      | (st'', .error e) => (st'', .error e)
      | (st'', .ok (cl, un)) => (st'', .ok (cl, n :: un))

/-- Modelled from the spec: the asynchronous `lookup` entry point
(spec section 4.1).  A fresh query is created; the claim phase runs over
the ordered search list; unmatched names fail the query with
SymbolsNotFound and generator errors fail it verbatim; otherwise the query
is installed, claimed aliases are resolved, MUs of claimed names that have
not begun materializing are dispatched, and any satisfied queries fire. -/
def lookup (st0 : SessionState) (sl : List (Nat × Bool)) (names : List Nat)
    (want : SymbolStage) : SessionState :=
  let qid := st0.nextQueryId
  let st := { st0 with nextQueryId := qid + 1 }
  match claimPhase st sl names with
  | (st', .error e) =>
      addEvent st' (.queryCompleted qid (.failure e))
  | (st', .ok (claims, unmatched)) =>
    if unmatched.isEmpty then
      let st1 := { st' with queries := ⟨qid, claims, want⟩ :: st'.queries }
      tryFireQueries (scheduleMUs (resolveAliases st1 claims) claims)
    else
      addEvent st' (.queryCompleted qid (.failure (.symbolsNotFound
        unmatched)))

/-- The state of the session immediately after an empty-name-set lookup has
installed its (trivially satisfied) query: the fresh query identifier is
consumed and the query is pending. -/
def emptyLookupState (st : SessionState) (want : SymbolStage) :
    SessionState :=
  { st with
    nextQueryId := st.nextQueryId + 1,
    queries := ⟨st.nextQueryId, [], want⟩ :: st.queries }

/-! ### Observations -/

/-- Every completion delivered to query `q` in an event log. -/
def completionsIn (evs : List Event) (q : Nat) : List QueryResult :=
  evs.filterMap (fun e =>
    match e with
    | .queryCompleted i r => if i == q then some r else none
    | _ => none)

/-- Every completion delivered to query `q` (most recent first). -/
def completionsOf (st : SessionState) (q : Nat) : List QueryResult :=
  completionsIn st.events q

/-- Query identifiers are managed by the session: pending queries and logged
completions use identifiers below the fresh counter. -/
def wfQueryIds (st : SessionState) : Prop :=
  (∀ q ∈ st.queries, q.qid < st.nextQueryId) ∧
  (∀ i r, Event.queryCompleted i r ∈ st.events → i < st.nextQueryId)

/-- Number of `materialize` invocations in an event log. -/
def matCount (evs : List Event) : Nat :=
  (evs.filter (fun e =>
    match e with
    | .materializeInvoked _ => true
    | _ => false)).length

/-- A dylib with no generators (or absent altogether). -/
def genFree (st : SessionState) (d : Nat) : Bool :=
  match alookup d st.dylibs with
  | some dl => dl.generators.isEmpty
  | none => true

/-- The specification's description of claim order, written from the spec's
words for comparison against the model's `scanName`: the first DL of the
search list in which the name has a definition visible under that entry's
match-non-exported boolean. -/
def specFirstVisibleDylib (st : SessionState) (n : Nat) :
    List (Nat × Bool) → Option Nat
  | [] => none
  | (d, b) :: rest =>
    match recordOf st d n with
    | some r =>
        if visibleRec b r then some d else specFirstVisibleDylib st n rest
    | none => specFirstVisibleDylib st n rest

/-- View of a scan outcome as a claiming dylib. -/
def scanOutOf : Option Nat → ScanOut
  | some d => .claimedBy d
  | none => .nomatch

/-! ### Concrete scenario states mirroring the cited tests -/

/-- Interned handle of "Foo". -/
def fooN : Nat := 0

/-- Interned handle of "Bar". -/
def barN : Nat := 1

/-- Interned handle of "Baz". -/
def bazN : Nat := 2

/-- Interned handle of "Qux". -/
def quxN : Nat := 3

/-- Exported, strong flags. -/
def expFlags : SymbolFlags := ⟨true, false, false⟩

/-- Exported, weak flags. -/
def weakExpFlags : SymbolFlags := ⟨true, true, false⟩

/-- Non-exported (hidden), strong flags. -/
def hiddenFlags : SymbolFlags := ⟨false, false, false⟩

/-- Foo's evaluated symbol, address 0x1000 as in the spec's basic-success
scenario. -/
def fooEval : EvaluatedSymbol := ⟨0x1000, expFlags⟩

/-- Bar's evaluated symbol. -/
def barEval : EvaluatedSymbol := ⟨0x2000, expFlags⟩

/-- Baz's evaluated symbol. -/
def bazEval : EvaluatedSymbol := ⟨0x3000, expFlags⟩

/-- Qux's evaluated symbol. -/
def quxEval : EvaluatedSymbol := ⟨0x4000, expFlags⟩

/-- A dylib with no symbols and no generators. -/
def emptyDylib : Dylib := ⟨[], []⟩

/-- A session holding one empty dylib `JD = 0`. -/
def initState : SessionState := ⟨[(0, emptyDylib)], [], [], [], 0, 0⟩

/-- A session holding two empty dylibs `JD = 0` and `JD2 = 1`. -/
def twoDylibState : SessionState :=
  ⟨[(0, emptyDylib), (1, emptyDylib)], [], [], [], 0, 0⟩

/-- Unwrap a define result, keeping the previous state on error. -/
def applyDef (st : SessionState) (r : Except CoreError SessionState) :
    SessionState :=
  match r with
  | .ok s => s
  | .error _ => st

/-- C2 scenario: Foo defined through a capturing MU (MU id 0). -/
def c2st1 : SessionState :=
  applyDef initState (defineMU initState 0 [(fooN, expFlags)] .capture)

/-- C2 scenario: asynchronous lookup for Foo at Ready (query id 0). -/
def c2st2 : SessionState := lookup c2st1 [(0, false)] [fooN] .ready

/-- C2 scenario: the MR reports Foo resolved at 0x1000. -/
def c2st3 : SessionState := notifyResolved c2st2 0 [(fooN, fooEval)]

/-- C2 scenario: the MR reports emission. -/
def c2st4 : SessionState := notifyEmitted c2st3 0

/-- C1 scenario: Foo, Bar, Baz in one dylib, each with its own capturing MU
(MU ids 0, 1, 2). -/
def c1st3 : SessionState :=
  applyDef initState
    (defineMU initState 0 [(fooN, expFlags)] .capture) |>
  (fun s => applyDef s (defineMU s 0 [(barN, expFlags)] .capture)) |>
  (fun s => applyDef s (defineMU s 0 [(bazN, expFlags)] .capture))

/-- C1 scenario: Resolved and Ready lookups for each symbol
(query ids 0..5: Foo res/ready, Bar res/ready, Baz res/ready). -/
def c1st9 : SessionState :=
  lookup c1st3 [(0, false)] [fooN] .resolved |>
  (fun s => lookup s [(0, false)] [fooN] .ready) |>
  (fun s => lookup s [(0, false)] [barN] .resolved) |>
  (fun s => lookup s [(0, false)] [barN] .ready) |>
  (fun s => lookup s [(0, false)] [bazN] .resolved) |>
  (fun s => lookup s [(0, false)] [bazN] .ready)

/-- C1 scenario: circular dependencies Foo→Bar, Bar→Baz, Baz→Foo plus
self-edges (which the engine must filter out). -/
def c1st15 : SessionState :=
  addDependenciesForAll c1st9 0 [(0, [barN])] |>
  (fun s => addDependenciesForAll s 1 [(0, [bazN])]) |>
  (fun s => addDependenciesForAll s 2 [(0, [fooN])]) |>
  (fun s => addDependenciesForAll s 0 [(0, [fooN])]) |>
  (fun s => addDependenciesForAll s 1 [(0, [barN])]) |>
  (fun s => addDependenciesForAll s 2 [(0, [bazN])])

/-- C1 scenario: all three symbols resolved (none emitted yet). -/
def c1st18 : SessionState :=
  notifyResolved c1st15 0 [(fooN, fooEval)] |>
  (fun s => notifyResolved s 1 [(barN, barEval)]) |>
  (fun s => notifyResolved s 2 [(bazN, bazEval)])

/-- C1 scenario: Foo and Bar emitted (two of three). -/
def c1st20 : SessionState :=
  notifyEmitted (notifyEmitted c1st18 0) 1

/-- C1 scenario: Baz emitted (the third emission). -/
def c1st21 : SessionState := notifyEmitted c1st20 2

/-- C3 scenario: Foo absolute, Bar lazy (MU 0), Baz capturing (MU 1), and a
Ready lookup for Foo and Baz (query 0) that puts Baz in the Materializing
state. -/
def c3st4 : SessionState :=
  applyDef initState (defineAbsolute initState 0 [(fooN, fooEval)]) |>
  (fun s => applyDef s (defineMU s 0 [(barN, expFlags)] .capture)) |>
  (fun s => applyDef s (defineMU s 0 [(bazN, expFlags)] .capture)) |>
  (fun s => lookup s [(0, false)] [fooN, bazN] .ready)

/-- C3 scenario: Baz finishes materializing (resolved and emitted). -/
def c3st6 : SessionState :=
  notifyEmitted (notifyResolved c3st4 1 [(bazN, bazEval)]) 1

/-- C3 scenario for multi-name MU destruction: a single MU (id 0) declaring
Foo and Bar, neither of which has ever been looked up. -/
def c3mst : SessionState :=
  applyDef initState
    (defineMU initState 0 [(fooN, expFlags), (barN, expFlags)] .capture)

/-- C4 scenario: one MU (id 0) declaring weak Foo and weak Bar. -/
def c4st1 : SessionState :=
  applyDef initState
    (defineMU initState 0 [(fooN, weakExpFlags), (barN, weakExpFlags)]
      .capture)

/-- C4 scenario: a strong absolute Foo supersedes the weak MU def. -/
def c4st2 : SessionState :=
  applyDef c4st1 (defineAbsolute c4st1 0 [(fooN, fooEval)])

/-- C4 scenario: a strong absolute Bar supersedes the MU's last name. -/
def c4st3 : SessionState :=
  applyDef c4st2 (defineAbsolute c4st2 0 [(barN, barEval)])

/-- C4 scenario: a weak Foo MU whose name has begun materializing. -/
def c4wst2 : SessionState :=
  applyDef initState (defineMU initState 0 [(fooN, weakExpFlags)] .capture)
  |> (fun s => lookup s [(0, false)] [fooN] .ready)

/-- C5 scenario: MU 0 declares Foo and Bar, and a Ready lookup (query 0)
for both is pending when materialization fails. -/
def c5st2 : SessionState :=
  applyDef initState
    (defineMU initState 0 [(fooN, weakExpFlags), (barN, weakExpFlags)]
      .capture)
  |> (fun s => lookup s [(0, false)] [fooN, barN] .ready)

/-- C6 scenario: Foo absolute, Bar declared weak by a lazy MU that must not
run on a flags lookup. -/
def c6st2 : SessionState :=
  applyDef initState (defineAbsolute initState 0 [(fooN, fooEval)]) |>
  (fun s => applyDef s (defineMU s 0 [(barN, weakExpFlags)] .capture))

/-- C7 scenario: a dylib whose only generator fails with a fixed error. -/
def c7st : SessionState :=
  ⟨[(0, ⟨[], [.genFail (.generatorError 7)]⟩)], [], [], [], 0, 0⟩

/-- C7 scenario: the failing generator sits second in the chain, behind an
installing generator that does not claim the queried name. -/
def c7bst : SessionState :=
  ⟨[(0, ⟨[], [.installAbsolute [(barN, barEval)],
    .genFail (.generatorError 7)]⟩)], [], [], [], 0, 0⟩

/-- C7 scenario: the failing dylib sits second on the search list, behind an
empty generator-free dylib. -/
def c7cst : SessionState :=
  ⟨[(0, emptyDylib), (1, ⟨[], [.genFail (.generatorError 7)]⟩)],
    [], [], [], 0, 0⟩

/-- C8 scenario: Foo exported and Bar hidden in JD, Bar exported (with
Qux's address) in JD2. -/
def c8st2 : SessionState :=
  applyDef twoDylibState
    (defineAbsolute twoDylibState 0
      [(fooN, fooEval), (barN, ⟨0x2000, hiddenFlags⟩)]) |>
  (fun s => applyDef s (defineAbsolute s 1 [(barN, quxEval)]))

/-- C8 scenario: Ready lookup for Foo and Bar over the search list
[(JD, false), (JD2, false)] (query 0). -/
def c8st3 : SessionState :=
  lookup c8st2 [(0, false), (1, false)] [fooN, barN] .ready

/-- C9 scenario: absolute Foo plus aliases Baz→Bar and Bar→Foo. -/
def c9st2 : SessionState :=
  applyDef initState (defineAbsolute initState 0 [(fooN, fooEval)]) |>
  (fun s => applyDef s
    (defineAliases s 0 [(bazN, barN, expFlags), (barN, fooN, expFlags)]))

/-- C9 scenario: Ready lookup for Bar and Baz (query 0). -/
def c9st3 : SessionState := lookup c9st2 [(0, false)] [barN, bazN] .ready

/-! ### Association-list lemmas -/

theorem alookup_aset_self {α : Type} (k : Nat) (v : α) (l : List (Nat × α)) :
    alookup k (aset k v l) = some v := by
  simp [aset, alookup]

theorem alookup_aerase_other {α : Type} {k k' : Nat} (h : k' ≠ k)
    (l : List (Nat × α)) : alookup k' (aerase k l) = alookup k' l := by
  induction l with
  | nil => rfl
  | cons p t ih =>
    by_cases hp : p.1 = k
    · have hne : ¬ p.1 = k' := by
        intro hc; exact h (hc ▸ hp)
      have h1 : aerase k (p :: t) = aerase k t := by
        simp [aerase, List.filter_cons, hp]
      rw [h1, ih]
      simp [alookup, hne]
    · have h1 : aerase k (p :: t) = p :: aerase k t := by
        simp [aerase, List.filter_cons, hp]
      rw [h1]
      by_cases hq : p.1 = k'
      · simp [alookup, hq]
      · simp [alookup, hq, ih]

theorem alookup_aset_other {α : Type} {k k' : Nat} (h : k' ≠ k) (v : α)
    (l : List (Nat × α)) : alookup k' (aset k v l) = alookup k' l := by
  have : (k = k') = False := by
    simp; intro hc; exact h hc.symm
  simp [aset, alookup, this, alookup_aerase_other h]

theorem alookup_aerase_self {α : Type} (k : Nat) (l : List (Nat × α)) :
    alookup k (aerase k l) = none := by
  induction l with
  | nil => rfl
  | cons p t ih =>
    by_cases hp : p.1 = k
    · have h1 : aerase k (p :: t) = aerase k t := by
        simp [aerase, List.filter_cons, hp]
      rw [h1]
      exact ih
    · have h1 : aerase k (p :: t) = p :: aerase k t := by
        simp [aerase, List.filter_cons, hp]
      rw [h1]
      simp [alookup, hp, ih]

theorem alookup_mem {α : Type} {k : Nat} {v : α} {l : List (Nat × α)}
    (h : alookup k l = some v) : (k, v) ∈ l := by
  induction l with
  | nil => simp [alookup] at h
  | cons p t ih =>
    by_cases hp : p.1 = k
    · simp [alookup, hp] at h
      have hpv : p = (k, v) := by
        cases p
        simp only [Prod.mk.injEq]
        exact ⟨hp, h⟩
      rw [hpv]
      exact List.mem_cons_self _ _
    · simp [alookup, hp] at h
      exact List.mem_cons_of_mem _ (ih h)

/-! ### Frame lemmas for the primitive state operations -/

theorem recordOf_eq_of_dylibs {st st' : SessionState}
    (h : st'.dylibs = st.dylibs) (d n : Nat) :
    recordOf st' d n = recordOf st d n := by
  unfold recordOf
  rw [h]

theorem setRecord_events (st : SessionState) (d n : Nat) (r : SymbolRecord) :
    (setRecord st d n r).events = st.events := by
  unfold setRecord
  cases alookup d st.dylibs <;> rfl

theorem setRecord_mus (st : SessionState) (d n : Nat) (r : SymbolRecord) :
    (setRecord st d n r).mus = st.mus := by
  unfold setRecord
  cases alookup d st.dylibs <;> rfl

theorem setRecord_queries (st : SessionState) (d n : Nat) (r : SymbolRecord) :
    (setRecord st d n r).queries = st.queries := by
  unfold setRecord
  cases alookup d st.dylibs <;> rfl

theorem recordOf_setRecord_self {st : SessionState} {d : Nat} {dl : Dylib}
    (n : Nat) (r : SymbolRecord) (hd : alookup d st.dylibs = some dl) :
    recordOf (setRecord st d n r) d n = some r := by
  unfold setRecord recordOf
  rw [hd]
  simp [alookup_aset_self]

theorem recordOf_setRecord_other_dylib {d' d : Nat} (h : d' ≠ d)
    (st : SessionState) (n : Nat) (r : SymbolRecord) (n' : Nat) :
    recordOf (setRecord st d n r) d' n' = recordOf st d' n' := by
  unfold setRecord recordOf
  cases hd : alookup d st.dylibs with
  | none => simp [hd]
  | some dl => simp [alookup_aset_other h]

theorem recordOf_setRecord_other_name {n' n : Nat} (h : n' ≠ n)
    (st : SessionState) (d : Nat) (r : SymbolRecord) :
    recordOf (setRecord st d n r) d n' = recordOf st d n' := by
  unfold setRecord recordOf
  cases hd : alookup d st.dylibs with
  | none => simp [hd]
  | some dl => simp [alookup_aset_self, alookup_aset_other h, hd]

theorem eraseRecord_events (st : SessionState) (d n : Nat) :
    (eraseRecord st d n).events = st.events := by
  unfold eraseRecord
  cases alookup d st.dylibs <;> rfl

theorem eraseRecord_mus (st : SessionState) (d n : Nat) :
    (eraseRecord st d n).mus = st.mus := by
  unfold eraseRecord
  cases alookup d st.dylibs <;> rfl

theorem eraseRecord_queries (st : SessionState) (d n : Nat) :
    (eraseRecord st d n).queries = st.queries := by
  unfold eraseRecord
  cases alookup d st.dylibs <;> rfl

theorem recordOf_eraseRecord_self (st : SessionState) (d n : Nat) :
    recordOf (eraseRecord st d n) d n = none := by
  unfold eraseRecord recordOf
  cases hd : alookup d st.dylibs with
  | none => simp [hd]
  | some dl => simp [alookup_aset_self, alookup_aerase_self]

theorem recordOf_eraseRecord_other_name {n' n : Nat} (h : n' ≠ n)
    (st : SessionState) (d : Nat) :
    recordOf (eraseRecord st d n) d n' = recordOf st d n' := by
  unfold eraseRecord recordOf
  cases hd : alookup d st.dylibs with
  | none => simp [hd]
  | some dl => simp [alookup_aset_self, alookup_aerase_other h, hd]

theorem discardName_dylibs (st : SessionState) (n : Nat) (r : SymbolRecord) :
    (discardName st n r).dylibs = st.dylibs := by
  cases hm : r.muId with
  | none => simp [discardName, hm]
  | some m =>
    cases hmu : alookup m st.mus with
    | none => simp [discardName, hm, hmu]
    | some mu =>
      simp only [discardName, hm, hmu]
      split <;> rfl

theorem discardName_queries (st : SessionState) (n : Nat) (r : SymbolRecord) :
    (discardName st n r).queries = st.queries := by
  cases hm : r.muId with
  | none => simp [discardName, hm]
  | some m =>
    cases hmu : alookup m st.mus with
    | none => simp [discardName, hm, hmu]
    | some mu =>
      simp only [discardName, hm, hmu]
      split <;> rfl

theorem discardName_noMU (st : SessionState) (n : Nat) (r : SymbolRecord)
    (h : r.muId = none) : discardName st n r = st := by
  simp [discardName, h]

theorem discardName_events_mono {e : Event} (st : SessionState) (n : Nat)
    (r : SymbolRecord) (h : e ∈ st.events) :
    e ∈ (discardName st n r).events := by
  cases hm : r.muId with
  | none => simpa [discardName, hm] using h
  | some m =>
    cases hmu : alookup m st.mus with
    | none => simpa [discardName, hm, hmu] using h
    | some mu =>
      simp only [discardName, hm, hmu]
      split
      · simp only [List.mem_cons]
        exact Or.inr (Or.inr h)
      · simp only [List.mem_cons]
        exact Or.inr h

theorem discardName_discarded (st : SessionState) (n m : Nat)
    (r : SymbolRecord) (mu : MUState) (hm : r.muId = some m)
    (hmu : alookup m st.mus = some mu) :
    Event.discarded m n ∈ (discardName st n r).events := by
  simp only [discardName, hm, hmu]
  split
  · simp
  · simp

theorem discardName_destroyed (st : SessionState) (n m : Nat)
    (r : SymbolRecord) (mu : MUState) (hm : r.muId = some m)
    (hmu : alookup m st.mus = some mu) (hrem : mu.remaining = [n]) :
    Event.muDestroyed m ∈ (discardName st n r).events := by
  simp only [discardName, hm, hmu, hrem]
  simp [List.filter]

theorem discardName_mu_pres (st : SessionState) (x : Nat) (rx : SymbolRecord)
    {m : Nat} {mu : MUState} {n : Nat}
    (hm : alookup m st.mus = some mu) (hn : n ∈ mu.remaining) (hx : x ≠ n) :
    ∃ mu', alookup m (discardName st x rx).mus = some mu' ∧
      n ∈ mu'.remaining ∧ mu'.remaining.Sublist mu.remaining := by
  cases hm2 : rx.muId with
  | none => exact ⟨mu, by simpa [discardName, hm2] using hm, hn,
      List.Sublist.refl _⟩
  | some m2 =>
    cases hmu2 : alookup m2 st.mus with
    | none => exact ⟨mu, by simpa [discardName, hm2, hmu2] using hm, hn,
        List.Sublist.refl _⟩
    | some mu2 =>
      simp only [discardName, hm2, hmu2]
      by_cases hmm : m2 = m
      · subst hmm
        rw [hm] at hmu2
        injection hmu2 with hmu2
        subst hmu2
        have hnin : n ∈ mu.remaining.filter (fun y => decide (y ≠ x)) := by
          refine List.mem_filter.mpr ⟨hn, ?_⟩
          simp only [decide_eq_true_eq]
          exact fun hc => hx (hc ▸ rfl)
        have hne : (mu.remaining.filter (fun y => decide (y ≠ x))).isEmpty
            = false := by
          cases hl : mu.remaining.filter (fun y => decide (y ≠ x)) with
          | nil => rw [hl] at hnin; simp at hnin
          | cons a t => rfl
        rw [if_neg (by rw [hne]; simp)]
        exact ⟨_, alookup_aset_self _ _ _, hnin, List.filter_sublist _⟩
      · have hne2 : m ≠ m2 := fun hc => hmm hc.symm
        split
        · exact ⟨mu, by rw [alookup_aerase_other hne2]; exact hm, hn,
            List.Sublist.refl _⟩
        · exact ⟨mu, by rw [alookup_aset_other hne2]; exact hm, hn,
            List.Sublist.refl _⟩

/-! ### Lemmas about the per-name remove and install steps -/

theorem iteDiscard_dylibs (c : Prop) [Decidable c] (s : SessionState)
    (n : Nat) (r : SymbolRecord) :
    (if c then discardName s n r else s).dylibs = s.dylibs := by
  split
  · exact discardName_dylibs s n r
  · rfl

theorem removeOne_recordOf_absent (s : SessionState) (dlId x n : Nat)
    (h : recordOf s dlId n = none) :
    recordOf (removeOne s dlId x) dlId n = none := by
  cases hrx : recordOf s dlId x with
  | none => simpa [removeOne, hrx] using h
  | some rx =>
    simp only [removeOne, hrx]
    by_cases hxn : n = x
    · subst hxn
      exact recordOf_eraseRecord_self _ _ _
    · rw [recordOf_eraseRecord_other_name hxn,
        recordOf_eq_of_dylibs (iteDiscard_dylibs _ _ _ _)]
      exact h

theorem removeOne_recordOf_self (s : SessionState) (dlId n : Nat) :
    recordOf (removeOne s dlId n) dlId n = none := by
  cases hrx : recordOf s dlId n with
  | none => simp [removeOne, hrx]
  | some rx =>
    simp only [removeOne, hrx]
    exact recordOf_eraseRecord_self _ _ _

theorem removeOne_recordOf_other (s : SessionState) (dlId x n : Nat)
    (hxn : n ≠ x) :
    recordOf (removeOne s dlId x) dlId n = recordOf s dlId n := by
  cases hrx : recordOf s dlId x with
  | none => simp [removeOne, hrx]
  | some rx =>
    simp only [removeOne, hrx]
    rw [recordOf_eraseRecord_other_name hxn,
      recordOf_eq_of_dylibs (iteDiscard_dylibs _ _ _ _)]

theorem removeOne_events_mono {e : Event} (s : SessionState) (dlId x : Nat)
    (h : e ∈ s.events) : e ∈ (removeOne s dlId x).events := by
  cases hrx : recordOf s dlId x with
  | none => simpa [removeOne, hrx] using h
  | some rx =>
    simp only [removeOne, hrx]
    rw [eraseRecord_events]
    split
    · exact discardName_events_mono _ _ _ h
    · exact h

theorem removeOne_mu_pres (s : SessionState) (dlId x : Nat)
    {m : Nat} {mu : MUState} {n : Nat}
    (hm : alookup m s.mus = some mu) (hn : n ∈ mu.remaining) (hx : x ≠ n) :
    ∃ mu', alookup m (removeOne s dlId x).mus = some mu' ∧
      n ∈ mu'.remaining ∧ mu'.remaining.Sublist mu.remaining := by
  cases hrx : recordOf s dlId x with
  | none => exact ⟨mu, by simpa [removeOne, hrx] using hm, hn,
      List.Sublist.refl _⟩
  | some rx =>
    simp only [removeOne, hrx]
    rw [eraseRecord_mus]
    split
    · exact discardName_mu_pres s x rx hm hn hx
    · exact ⟨mu, hm, hn, List.Sublist.refl _⟩

theorem installAbsOne_recordOf_other (s : SessionState) (d k : Nat)
    (v : EvaluatedSymbol) {d' n' : Nat} (h : ¬(d' = d ∧ n' = k)) :
    recordOf (installAbsOne s d k v) d' n' = recordOf s d' n' := by
  by_cases hdd : d' = d
  · subst hdd
    have hn : n' ≠ k := fun hc => h ⟨rfl, hc⟩
    cases hrec : recordOf s d' k with
    | none =>
        simp only [installAbsOne, hrec]
        rw [recordOf_setRecord_other_name hn]
    | some r =>
        simp only [installAbsOne, hrec]
        rw [recordOf_setRecord_other_name hn,
          recordOf_eq_of_dylibs (discardName_dylibs _ _ _)]
  · cases hrec : recordOf s d k with
    | none =>
        simp only [installAbsOne, hrec]
        rw [recordOf_setRecord_other_dylib hdd]
    | some r =>
        simp only [installAbsOne, hrec]
        rw [recordOf_setRecord_other_dylib hdd,
          recordOf_eq_of_dylibs (discardName_dylibs _ _ _)]

theorem installAbsOne_recordOf_self (s : SessionState) (d k : Nat)
    (v : EvaluatedSymbol) {dl : Dylib} (hdl : alookup d s.dylibs = some dl) :
    recordOf (installAbsOne s d k v) d k = some (absRecord v) := by
  cases hrec : recordOf s d k with
  | none =>
      simp only [installAbsOne, hrec]
      exact recordOf_setRecord_self _ _ hdl
  | some r =>
      simp only [installAbsOne, hrec]
      have hdl' : alookup d (discardName s k r).dylibs = some dl := by
        rw [discardName_dylibs]
        exact hdl
      exact recordOf_setRecord_self _ _ hdl'

theorem installAbsOne_events_mono {e : Event} (s : SessionState) (d k : Nat)
    (v : EvaluatedSymbol) (h : e ∈ s.events) :
    e ∈ (installAbsOne s d k v).events := by
  cases hrec : recordOf s d k with
  | none =>
      simp only [installAbsOne, hrec]
      rw [setRecord_events]
      exact h
  | some r =>
      simp only [installAbsOne, hrec]
      rw [setRecord_events]
      exact discardName_events_mono _ _ _ h

theorem installAbsOne_mu_pres (s : SessionState) (d k : Nat)
    (v : EvaluatedSymbol) {m : Nat} {mu : MUState} {n : Nat}
    (hm : alookup m s.mus = some mu) (hn : n ∈ mu.remaining) (hk : k ≠ n) :
    ∃ mu', alookup m (installAbsOne s d k v).mus = some mu' ∧
      n ∈ mu'.remaining ∧ mu'.remaining.Sublist mu.remaining := by
  cases hrec : recordOf s d k with
  | none =>
      simp only [installAbsOne, hrec]
      rw [setRecord_mus]
      exact ⟨mu, hm, hn, List.Sublist.refl _⟩
  | some r =>
      simp only [installAbsOne, hrec]
      rw [setRecord_mus]
      exact discardName_mu_pres s k r hm hn hk

theorem installAbsOne_frame (s : SessionState) (d k : Nat)
    (v : EvaluatedSymbol)
    (hfr : recordOf s d k = none ∨
      ∃ r, recordOf s d k = some r ∧ r.muId = none) :
    (installAbsOne s d k v).events = s.events ∧
    (installAbsOne s d k v).mus = s.mus ∧
    (installAbsOne s d k v).queries = s.queries := by
  rcases hfr with h | ⟨r, hr, hmu⟩
  · simp only [installAbsOne, h]
    exact ⟨setRecord_events _ _ _ _, setRecord_mus _ _ _ _,
      setRecord_queries _ _ _ _⟩
  · simp only [installAbsOne, hr]
    rw [discardName_noMU _ _ _ hmu]
    exact ⟨setRecord_events _ _ _ _, setRecord_mus _ _ _ _,
      setRecord_queries _ _ _ _⟩

theorem installAbsOne_dylib_pres (s : SessionState) (d k : Nat)
    (v : EvaluatedSymbol) {dl : Dylib} (hdl : alookup d s.dylibs = some dl) :
    ∃ dl', alookup d (installAbsOne s d k v).dylibs = some dl' := by
  cases hrec : recordOf s d k with
  | none =>
      simp only [installAbsOne, hrec, setRecord, hdl]
      exact ⟨_, alookup_aset_self _ _ _⟩
  | some r =>
      have hdl' : alookup d (discardName s k r).dylibs = some dl := by
        rw [discardName_dylibs]
        exact hdl
      simp only [installAbsOne, hrec, setRecord, hdl']
      exact ⟨_, alookup_aset_self _ _ _⟩

theorem installAbsOne_recordOf_muId_none (s : SessionState) (d k : Nat)
    (v : EvaluatedSymbol) {dl : Dylib} (hdl : alookup d s.dylibs = some dl) :
    ∃ r, recordOf (installAbsOne s d k v) d k = some r ∧ r.muId = none :=
  ⟨absRecord v, installAbsOne_recordOf_self s d k v hdl, rfl⟩

theorem sublist_singleton_of_mem {n : Nat} {l : List Nat}
    (hs : l.Sublist [n]) (hm : n ∈ l) : l = [n] := by
  rcases List.sublist_singleton.mp hs with h | h
  · rw [h] at hm
    simp at hm
  · exact h

/-! ### Fold lemmas for remove -/

theorem isEmpty_false_of_mem {α : Type} {x : α} {l : List α} (h : x ∈ l) :
    l.isEmpty = false := by
  cases l with
  | nil => simp at h
  | cons a t => rfl

theorem removeFold_absent (dlId : Nat) :
    ∀ (l : List Nat) (s : SessionState) (n : Nat),
    recordOf s dlId n = none →
    recordOf (l.foldl (fun acc x => removeOne acc dlId x) s) dlId n
      = none := by
  intro l
  induction l with
  | nil => intro s n h; exact h
  | cons x t ih =>
    intro s n h
    exact ih _ _ (removeOne_recordOf_absent _ _ _ _ h)

theorem removeFold_erases (dlId : Nat) :
    ∀ (l : List Nat) (s : SessionState) (n : Nat), n ∈ l →
    recordOf (l.foldl (fun acc x => removeOne acc dlId x) s) dlId n
      = none := by
  intro l
  induction l with
  | nil => intro s n h; simp at h
  | cons x t ih =>
    intro s n h
    by_cases hnx : n = x
    · subst hnx
      exact removeFold_absent dlId t _ _ (removeOne_recordOf_self _ _ _)
    · have hnt : n ∈ t := by
        rcases List.mem_cons.mp h with h1 | h1
        · exact absurd h1 hnx
        · exact h1
      exact ih _ _ hnt

theorem removeFold_events_mono (dlId : Nat) {e : Event} :
    ∀ (l : List Nat) (s : SessionState), e ∈ s.events →
    e ∈ (l.foldl (fun acc x => removeOne acc dlId x) s).events := by
  intro l
  induction l with
  | nil => intro s h; exact h
  | cons x t ih =>
    intro s h
    exact ih _ (removeOne_events_mono _ _ _ h)

theorem removeFold_discard (dlId : Nat) (r : SymbolRecord) (m : Nat)
    (mu : MUState) :
    ∀ (l : List Nat) (s : SessionState) (n : Nat), n ∈ l →
    recordOf s dlId n = some r → r.stage = .neverSearched →
    r.muId = some m →
    (∃ mu', alookup m s.mus = some mu' ∧ n ∈ mu'.remaining ∧
      mu'.remaining.Sublist mu.remaining) →
    Event.discarded m n ∈
      (l.foldl (fun acc x => removeOne acc dlId x) s).events ∧
    (mu.remaining = [n] → Event.muDestroyed m ∈
      (l.foldl (fun acc x => removeOne acc dlId x) s).events) := by
  intro l
  induction l with
  | nil => intro s n h; simp at h
  | cons x t ih =>
    intro s n hmem hrec hst hmid hK
    obtain ⟨mu', hm', hn', hsub⟩ := hK
    by_cases hx : x = n
    · subst hx
      have hstep : removeOne s dlId x = eraseRecord (discardName s x r)
          dlId x := by
        simp only [removeOne, hrec]
        rw [if_pos (by simp [hst])]
      constructor
      · rw [List.foldl_cons]
        apply removeFold_events_mono
        rw [hstep, eraseRecord_events]
        exact discardName_discarded s x m r mu' hmid hm'
      · intro hone
        have hmu' : mu'.remaining = [x] :=
          sublist_singleton_of_mem (hone ▸ hsub) hn'
        rw [List.foldl_cons]
        apply removeFold_events_mono
        rw [hstep, eraseRecord_events]
        exact discardName_destroyed s x m r mu' hmid hm' hmu'
    · have hnt : n ∈ t := by
        rcases List.mem_cons.mp hmem with h1 | h1
        · exact absurd h1.symm hx
        · exact h1
      apply ih _ _ hnt
      · rw [removeOne_recordOf_other s dlId x n (fun hc => hx hc.symm)]
        exact hrec
      · exact hst
      · exact hmid
      · obtain ⟨mu'', hm'', hn'', hsub''⟩ :=
          removeOne_mu_pres s dlId x hm' hn' hx
        exact ⟨mu'', hm'', hn'', hsub''.trans hsub⟩

theorem removeOne_mu_discard_step (s : SessionState) (dlId x0 m : Nat)
    (mu' : MUState) (r0 : SymbolRecord)
    (hm : alookup m s.mus = some mu')
    (hrec : recordOf s dlId x0 = some r0)
    (hst : r0.stage = .neverSearched) (hmid : r0.muId = some m) :
    (mu'.remaining.filter (fun y => decide (y ≠ x0)) = [] →
      Event.muDestroyed m ∈ (removeOne s dlId x0).events) ∧
    (mu'.remaining.filter (fun y => decide (y ≠ x0)) ≠ [] →
      alookup m (removeOne s dlId x0).mus =
        some { mu' with
          remaining := mu'.remaining.filter (fun y => decide (y ≠ x0)) }) := by
  have hstep : removeOne s dlId x0 =
      eraseRecord (discardName s x0 r0) dlId x0 := by
    simp only [removeOne, hrec]
    rw [if_pos (by simp [hst])]
  constructor
  · intro hemp
    rw [hstep, eraseRecord_events]
    simp only [discardName, hmid, hm, hemp]
    simp
  · intro hne
    rw [hstep, eraseRecord_mus]
    simp only [discardName, hmid, hm]
    rw [if_neg (fun hc => hne (List.isEmpty_iff.mp hc))]
    exact alookup_aset_self _ _ _

theorem removeFold_destroys (dlId m : Nat) :
    ∀ (l : List Nat) (s : SessionState) (mu' : MUState),
    alookup m s.mus = some mu' →
    mu'.remaining ≠ [] →
    (∀ x ∈ mu'.remaining, x ∈ l ∧ ∃ rx, recordOf s dlId x = some rx ∧
      rx.stage = .neverSearched ∧ rx.muId = some m) →
    Event.muDestroyed m ∈
      (l.foldl (fun acc y => removeOne acc dlId y) s).events := by
  intro l
  induction l with
  | nil =>
    intro s mu' hm hne hall
    obtain ⟨x, hx⟩ := List.exists_mem_of_ne_nil _ hne
    have hx2 := (hall x hx).1
    simp at hx2
  | cons x0 t ih =>
    intro s mu' hm hne hall
    rw [List.foldl_cons]
    by_cases hx0 : x0 ∈ mu'.remaining
    · obtain ⟨-, r0, hrec0, hst0, hmid0⟩ := hall x0 hx0
      have hstep := removeOne_mu_discard_step s dlId x0 m mu' r0 hm hrec0
        hst0 hmid0
      by_cases hemp : mu'.remaining.filter (fun y => decide (y ≠ x0)) = []
      · exact removeFold_events_mono dlId t _ (hstep.1 hemp)
      · refine ih (removeOne s dlId x0)
          { mu' with
            remaining := mu'.remaining.filter (fun y => decide (y ≠ x0)) }
          (hstep.2 hemp) hemp ?_
        intro x hx
        have hxf := List.mem_filter.mp hx
        have hxne : x ≠ x0 := by simpa using hxf.2
        obtain ⟨hxl, rx, hrx, hstx, hmx⟩ := hall x hxf.1
        refine ⟨?_, rx, ?_, hstx, hmx⟩
        · rcases List.mem_cons.mp hxl with h1 | h1
          · exact absurd h1 hxne
          · exact h1
        · rw [removeOne_recordOf_other s dlId x0 x hxne]
          exact hrx
    · obtain ⟨xw, hxw⟩ := List.exists_mem_of_ne_nil _ hne
      have hxwne : x0 ≠ xw := fun hc => hx0 (hc ▸ hxw)
      obtain ⟨mu'', hm'', hxw'', hsub''⟩ :=
        removeOne_mu_pres s dlId x0 hm hxw hxwne
      refine ih (removeOne s dlId x0) mu'' hm''
        (fun hc => by rw [hc] at hxw''; simp at hxw'') ?_
      intro x hx
      have hxmem : x ∈ mu'.remaining := hsub''.subset hx
      have hxne : x ≠ x0 := fun hc => hx0 (hc ▸ hxmem)
      obtain ⟨hxl, rx, hrx, hstx, hmx⟩ := hall x hxmem
      refine ⟨?_, rx, ?_, hstx, hmx⟩
      · rcases List.mem_cons.mp hxl with h1 | h1
        · exact absurd h1 hxne
        · exact h1
      · rw [removeOne_recordOf_other s dlId x0 x hxne]
        exact hrx

/-! ### Claim C3 -/

/-- C3: for every call `remove(names)` on a dynamic library, an unknown name
fails the call with SymbolsNotFound and a still-materializing name fails it
with SymbolsCouldNotBeRemoved — in both cases the call returns an error
before any mutation, so the dylib state is unchanged — and otherwise the
call succeeds: every named symbol is erased, every name whose MU has not run
is discarded on that MU, and an MU that has thereby lost all of its names is
destroyed — also when a single remove call erases several (or all) of one
MU's names, as the last conjunct states for any MU all of whose remaining
names are among the removed ones. -/
theorem C3_remove_semantics (st : SessionState) (dlId : Nat) (dl : Dylib)
    (names : List Nat) (hdl : alookup dlId st.dylibs = some dl) :
    ((∃ n ∈ names, alookup n dl.symbols = none) →
      removeSyms st dlId names = .error (.symbolsNotFound
        (names.filter (fun n => (alookup n dl.symbols).isNone)))) ∧
    ((∀ n ∈ names, (alookup n dl.symbols).isSome) →
      (∃ n ∈ names, materializingIn dl n = true) →
      removeSyms st dlId names = .error (.symbolsCouldNotBeRemoved
        (names.filter (fun n => materializingIn dl n)))) ∧
    ((∀ n ∈ names, (alookup n dl.symbols).isSome) →
      (∀ n ∈ names, materializingIn dl n = false) →
      ∃ st', removeSyms st dlId names = .ok st' ∧
        (∀ n ∈ names, recordOf st' dlId n = none) ∧
        (∀ n ∈ names, ∀ r m mu, alookup n dl.symbols = some r →
          r.stage = .neverSearched → r.muId = some m →
          alookup m st.mus = some mu → n ∈ mu.remaining →
          Event.discarded m n ∈ st'.events ∧
          (mu.remaining = [n] → Event.muDestroyed m ∈ st'.events)) ∧
        (∀ m mu, alookup m st.mus = some mu → mu.remaining ≠ [] →
          (∀ x ∈ mu.remaining, x ∈ names ∧ ∃ rx,
            alookup x dl.symbols = some rx ∧ rx.stage = .neverSearched ∧
            rx.muId = some m) →
          Event.muDestroyed m ∈ st'.events)) := by
  refine ⟨?_, ?_, ?_⟩
  · rintro ⟨n, hn, hund⟩
    have hmem : n ∈ names.filter (fun n => (alookup n dl.symbols).isNone) :=
      List.mem_filter.mpr ⟨hn, by simp [hund]⟩
    have hne := isEmpty_false_of_mem hmem
    simp only [removeSyms, hdl]
    rw [if_neg (by rw [hne]; simp)]
  · intro hdef ⟨n, hn, hmat⟩
    have hmiss : names.filter (fun n => (alookup n dl.symbols).isNone)
        = [] := by
      rw [List.filter_eq_nil_iff]
      intro a ha
      obtain ⟨r, hr⟩ := Option.isSome_iff_exists.mp (hdef a ha)
      simp [hr]
    have hmem2 : n ∈ names.filter (fun n => materializingIn dl n) :=
      List.mem_filter.mpr ⟨hn, hmat⟩
    have hne2 := isEmpty_false_of_mem hmem2
    simp only [removeSyms, hdl]
    rw [hmiss]
    simp [hne2]
  · intro hdef hnomat
    have hmiss : names.filter (fun n => (alookup n dl.symbols).isNone)
        = [] := by
      rw [List.filter_eq_nil_iff]
      intro a ha
      obtain ⟨r, hr⟩ := Option.isSome_iff_exists.mp (hdef a ha)
      simp [hr]
    have hmat : names.filter (fun n => materializingIn dl n) = [] := by
      rw [List.filter_eq_nil_iff]
      intro a ha
      simp [hnomat a ha]
    refine ⟨names.foldl (fun s n => removeOne s dlId n) st, ?_, ?_, ?_, ?_⟩
    · simp only [removeSyms, hdl]
      rw [hmiss, hmat]
      simp
    · intro n hn
      exact removeFold_erases dlId names st n hn
    · intro n hn r m mu hr hst hmid hmu hrem
      refine removeFold_discard dlId r m mu names st n hn ?_ hst hmid
        ⟨mu, hmu, hrem, List.Sublist.refl _⟩
      simp [recordOf, hdl, hr]
    · intro m mu hmu hne hall
      refine removeFold_destroys dlId m names st mu hmu hne ?_
      intro x hx
      obtain ⟨hxn, rx, hrx, hstx, hmx⟩ := hall x hx
      exact ⟨hxn, rx, by simp [recordOf, hdl, hrx], hstx, hmx⟩

/-- Witness for C3 at the remove-semantics test scenario: the three removal
attempts of the cited test behave exactly as the claim states, and a single
remove call erasing both names of one MU destroys that MU. -/
theorem C3_remove_semantics_witness :
    removeSyms c3st4 0 [fooN, barN, bazN, quxN] =
      .error (.symbolsNotFound [quxN]) ∧
    removeSyms c3st4 0 [fooN, barN, bazN] =
      .error (.symbolsCouldNotBeRemoved [bazN]) ∧
    (∃ st', removeSyms c3st6 0 [fooN, barN, bazN] = .ok st' ∧
      recordOf st' 0 fooN = none ∧ recordOf st' 0 barN = none ∧
      recordOf st' 0 bazN = none ∧
      Event.discarded 0 barN ∈ st'.events ∧
      Event.muDestroyed 0 ∈ st'.events) ∧
    (∃ st', removeSyms c3mst 0 [fooN, barN] = .ok st' ∧
      Event.muDestroyed 0 ∈ st'.events) := by
  refine ⟨?_, ?_, ?_, ?_⟩
  · exact (C3_remove_semantics c3st4 0 _ [fooN, barN, bazN, quxN] rfl).1
      ⟨quxN, by decide, by decide⟩
  · exact (C3_remove_semantics c3st4 0 _ [fooN, barN, bazN] rfl).2.1
      (by decide) ⟨bazN, by decide, by decide⟩
  · obtain ⟨st', hok, herase, hdisc, -⟩ :=
      (C3_remove_semantics c3st6 0 _ [fooN, barN, bazN] rfl).2.2
        (by decide) (by decide)
    have hbar := hdisc barN (by decide) _ 0 _ rfl (by decide) (by decide)
      rfl (by decide)
    exact ⟨st', hok, herase fooN (by decide), herase barN (by decide),
      herase bazN (by decide), hbar.1, hbar.2 (by decide)⟩
  · obtain ⟨st', hok, -, -, hdest⟩ :=
      (C3_remove_semantics c3mst 0 _ [fooN, barN] rfl).2.2
        (by decide) (by decide)
    refine ⟨st', hok, hdest 0 ⟨[(fooN, expFlags), (barN, expFlags)],
      [fooN, barN], .capture, 0⟩ (by decide) (by decide) ?_⟩
    intro x hx
    rcases List.mem_cons.mp hx with h1 | h1
    · subst h1
      exact ⟨by decide, lazyRecord expFlags 0, by decide, rfl, rfl⟩
    · rw [List.mem_singleton] at h1
      subst h1
      exact ⟨by decide, lazyRecord expFlags 0, by decide, rfl, rfl⟩

/-! ### Fold lemmas for absolute installation -/

theorem installFold_events_mono (dlId : Nat) {e : Event} :
    ∀ (defs : List (Nat × EvaluatedSymbol)) (s : SessionState),
    e ∈ s.events →
    e ∈ (defs.foldl (fun acc q => installAbsOne acc dlId q.1 q.2) s).events
    := by
  intro defs
  induction defs with
  | nil => intro s h; exact h
  | cons q t ih =>
    intro s h
    exact ih _ (installAbsOne_events_mono _ _ _ _ h)

theorem installFold_discard (dlId : Nat) (r : SymbolRecord) (m : Nat)
    (mu : MUState) :
    ∀ (defs : List (Nat × EvaluatedSymbol)) (s : SessionState) (n : Nat),
    n ∈ defs.map (·.1) →
    recordOf s dlId n = some r →
    r.muId = some m →
    (∃ mu', alookup m s.mus = some mu' ∧ n ∈ mu'.remaining ∧
      mu'.remaining.Sublist mu.remaining) →
    Event.discarded m n ∈
      (defs.foldl (fun acc q => installAbsOne acc dlId q.1 q.2) s).events ∧
    (mu.remaining = [n] → Event.muDestroyed m ∈
      (defs.foldl (fun acc q => installAbsOne acc dlId q.1 q.2) s).events)
    := by
  intro defs
  induction defs with
  | nil => intro s n h; simp at h
  | cons q t ih =>
    intro s n hmem hrec hmid hK
    obtain ⟨mu', hm', hn', hsub⟩ := hK
    by_cases hx : q.1 = n
    · have hstep : installAbsOne s dlId q.1 q.2 =
          setRecord (discardName s q.1 r) dlId q.1 (absRecord q.2) := by
        simp only [installAbsOne, hx, hrec]
      constructor
      · rw [List.foldl_cons]
        apply installFold_events_mono
        rw [hstep, setRecord_events, hx]
        exact discardName_discarded s n m r mu' hmid hm'
      · intro hone
        have hmu' : mu'.remaining = [n] :=
          sublist_singleton_of_mem (hone ▸ hsub) hn'
        rw [List.foldl_cons]
        apply installFold_events_mono
        rw [hstep, setRecord_events, hx]
        exact discardName_destroyed s n m r mu' hmid hm' hmu'
    · have hnt : n ∈ t.map (·.1) := by
        rcases List.mem_cons.mp hmem with h1 | h1
        · exact absurd h1.symm hx
        · exact h1
      apply ih _ _ hnt
      · rw [installAbsOne_recordOf_other s dlId q.1 q.2
          (fun hc => hx hc.2.symm)]
        exact hrec
      · exact hmid
      · obtain ⟨mu'', hm'', hn'', hsub''⟩ :=
          installAbsOne_mu_pres s dlId q.1 q.2 hm' hn' (fun hc => hx hc)
        exact ⟨mu'', hm'', hn'', hsub''.trans hsub⟩

theorem installFold_recordOf_pres (dlId : Nat) :
    ∀ (defs : List (Nat × EvaluatedSymbol)) (s : SessionState) (n : Nat),
    (∀ q ∈ defs, q.1 ≠ n) →
    recordOf (defs.foldl (fun acc q => installAbsOne acc dlId q.1 q.2) s)
      dlId n = recordOf s dlId n := by
  intro defs
  induction defs with
  | nil => intro s n h; rfl
  | cons q t ih =>
    intro s n h
    rw [List.foldl_cons, ih _ _ (fun p hp => h p (List.mem_cons_of_mem _ hp)),
      installAbsOne_recordOf_other s dlId q.1 q.2
        (fun hc => h q (List.mem_cons_self _ _) hc.2.symm)]

theorem installFold_sets (dlId : Nat) :
    ∀ (defs : List (Nat × EvaluatedSymbol)) (s : SessionState) (dl : Dylib),
    alookup dlId s.dylibs = some dl →
    (defs.map (·.1)).Nodup →
    ∀ p ∈ defs,
    recordOf (defs.foldl (fun acc q => installAbsOne acc dlId q.1 q.2) s)
      dlId p.1 = some (absRecord p.2) := by
  intro defs
  induction defs with
  | nil => intro s dl hdl hnd p hp; simp at hp
  | cons q t ih =>
    intro s dl hdl hnd p hp
    obtain ⟨dl', hdl'⟩ := installAbsOne_dylib_pres s dlId q.1 q.2 hdl
    have hnd2 : q.1 ∉ t.map (·.1) ∧ (t.map (·.1)).Nodup := by
      rw [List.map_cons] at hnd
      exact List.nodup_cons.mp hnd
    rcases List.mem_cons.mp hp with h1 | h1
    · subst h1
      rw [List.foldl_cons, installFold_recordOf_pres dlId t _ p.1 ?_]
      · exact installAbsOne_recordOf_self s dlId p.1 p.2 hdl
      · intro q2 hq2 hc
        exact hnd2.1 (List.mem_map.mpr ⟨q2, hq2, hc⟩)
    · rw [List.foldl_cons]
      exact ih _ dl' hdl' hnd2.2 p h1

/-! ### Generic lemmas about the shared definition-install step -/

theorem installAbsOne_eq_step (s : SessionState) (d n : Nat)
    (sym : EvaluatedSymbol) :
    installAbsOne s d n sym = installStep d s n (absRecord sym) := by
  cases h : recordOf s d n <;> simp [installAbsOne, installStep, h]

theorem installLazyOne_eq_step (s : SessionState) (d m n : Nat)
    (fl : SymbolFlags) :
    installLazyOne s d m n fl = installStep d s n (lazyRecord fl m) := by
  cases h : recordOf s d n <;> simp [installLazyOne, installStep, h]

theorem installAliasOne_eq_step (s : SessionState) (d n src : Nat)
    (fl : SymbolFlags) :
    installAliasOne s d n src fl = installStep d s n (aliasRecord fl src) := by
  cases h : recordOf s d n <;> simp [installAliasOne, installStep, h]

theorem absFold_eq (dlId : Nat) (defs : List (Nat × EvaluatedSymbol))
    (s : SessionState) :
    defs.foldl (fun acc q => installAbsOne acc dlId q.1 q.2) s =
      defs.foldl
        (fun acc q => installStep dlId acc q.1 (absRecord q.2)) s :=
  List.foldl_ext _ _ s (fun a b _ => installAbsOne_eq_step a dlId b.1 b.2)

theorem lazyFold_eq (dlId m : Nat) (decl : List (Nat × SymbolFlags))
    (s : SessionState) :
    decl.foldl (fun acc q => installLazyOne acc dlId m q.1 q.2) s =
      decl.foldl
        (fun acc q => installStep dlId acc q.1 (lazyRecord q.2 m)) s :=
  List.foldl_ext _ _ s (fun a b _ => installLazyOne_eq_step a dlId m b.1 b.2)

theorem aliasFold_eq (dlId : Nat) (al : List (Nat × Nat × SymbolFlags))
    (s : SessionState) :
    al.foldl (fun acc q => installAliasOne acc dlId q.1 q.2.1 q.2.2) s =
      al.foldl
        (fun acc q => installStep dlId acc q.1 (aliasRecord q.2.2 q.2.1)) s :=
  List.foldl_ext _ _ s
    (fun a b _ => installAliasOne_eq_step a dlId b.1 b.2.1 b.2.2)

theorem muBase_dylibs (st : SessionState) (dlId : Nat)
    (decl : List (Nat × SymbolFlags)) (behavior : MUBehavior) :
    (muBase st dlId decl behavior).dylibs = st.dylibs := rfl

theorem muBase_mus_other (st : SessionState) (dlId : Nat)
    (decl : List (Nat × SymbolFlags)) (behavior : MUBehavior) {m : Nat}
    (hmne : m ≠ st.nextMuId) :
    alookup m (muBase st dlId decl behavior).mus = alookup m st.mus :=
  alookup_aset_other hmne _ _

theorem installStep_recordOf_other (dlId : Nat) (s : SessionState) (k : Nat)
    (nr : SymbolRecord) {d' n' : Nat} (h : ¬(d' = dlId ∧ n' = k)) :
    recordOf (installStep dlId s k nr) d' n' = recordOf s d' n' := by
  by_cases hdd : d' = dlId
  · subst hdd
    have hn : n' ≠ k := fun hc => h ⟨rfl, hc⟩
    cases hrec : recordOf s d' k with
    | none =>
        simp only [installStep, hrec]
        rw [recordOf_setRecord_other_name hn]
    | some r =>
        simp only [installStep, hrec]
        rw [recordOf_setRecord_other_name hn,
          recordOf_eq_of_dylibs (discardName_dylibs _ _ _)]
  · cases hrec : recordOf s dlId k with
    | none =>
        simp only [installStep, hrec]
        rw [recordOf_setRecord_other_dylib hdd]
    | some r =>
        simp only [installStep, hrec]
        rw [recordOf_setRecord_other_dylib hdd,
          recordOf_eq_of_dylibs (discardName_dylibs _ _ _)]

theorem installStep_recordOf_self (dlId : Nat) (s : SessionState) (k : Nat)
    (nr : SymbolRecord) {dl : Dylib}
    (hdl : alookup dlId s.dylibs = some dl) :
    recordOf (installStep dlId s k nr) dlId k = some nr := by
  cases hrec : recordOf s dlId k with
  | none =>
      simp only [installStep, hrec]
      exact recordOf_setRecord_self _ _ hdl
  | some r =>
      simp only [installStep, hrec]
      have hdl' : alookup dlId (discardName s k r).dylibs = some dl := by
        rw [discardName_dylibs]
        exact hdl
      exact recordOf_setRecord_self _ _ hdl'

theorem installStep_events_mono {e : Event} (dlId : Nat) (s : SessionState)
    (k : Nat) (nr : SymbolRecord) (h : e ∈ s.events) :
    e ∈ (installStep dlId s k nr).events := by
  cases hrec : recordOf s dlId k with
  | none =>
      simp only [installStep, hrec]
      rw [setRecord_events]
      exact h
  | some r =>
      simp only [installStep, hrec]
      rw [setRecord_events]
      exact discardName_events_mono _ _ _ h

theorem installStep_mu_pres (dlId : Nat) (s : SessionState) (k : Nat)
    (nr : SymbolRecord) {m : Nat} {mu : MUState} {n : Nat}
    (hm : alookup m s.mus = some mu) (hn : n ∈ mu.remaining) (hk : k ≠ n) :
    ∃ mu', alookup m (installStep dlId s k nr).mus = some mu' ∧
      n ∈ mu'.remaining ∧ mu'.remaining.Sublist mu.remaining := by
  cases hrec : recordOf s dlId k with
  | none =>
      simp only [installStep, hrec]
      rw [setRecord_mus]
      exact ⟨mu, hm, hn, List.Sublist.refl _⟩
  | some r =>
      simp only [installStep, hrec]
      rw [setRecord_mus]
      exact discardName_mu_pres s k r hm hn hk

theorem installStep_dylib_pres (dlId : Nat) (s : SessionState) (k : Nat)
    (nr : SymbolRecord) {dl : Dylib}
    (hdl : alookup dlId s.dylibs = some dl) :
    ∃ dl', alookup dlId (installStep dlId s k nr).dylibs = some dl' := by
  cases hrec : recordOf s dlId k with
  | none =>
      simp only [installStep, hrec, setRecord, hdl]
      exact ⟨_, alookup_aset_self _ _ _⟩
  | some r =>
      have hdl' : alookup dlId (discardName s k r).dylibs = some dl := by
        rw [discardName_dylibs]
        exact hdl
      simp only [installStep, hrec, setRecord, hdl']
      exact ⟨_, alookup_aset_self _ _ _⟩

theorem installStep_mu_discard (dlId : Nat) (s : SessionState) (x0 m : Nat)
    (mu' : MUState) (r0 nr : SymbolRecord)
    (hm : alookup m s.mus = some mu')
    (hrec : recordOf s dlId x0 = some r0)
    (hmid : r0.muId = some m) :
    (mu'.remaining.filter (fun y => decide (y ≠ x0)) = [] →
      Event.muDestroyed m ∈ (installStep dlId s x0 nr).events) ∧
    (mu'.remaining.filter (fun y => decide (y ≠ x0)) ≠ [] →
      alookup m (installStep dlId s x0 nr).mus =
        some { mu' with
          remaining := mu'.remaining.filter (fun y => decide (y ≠ x0)) }) := by
  have hstep : installStep dlId s x0 nr =
      setRecord (discardName s x0 r0) dlId x0 nr := by
    simp only [installStep, hrec]
  constructor
  · intro hemp
    rw [hstep, setRecord_events]
    simp only [discardName, hmid, hm, hemp]
    simp
  · intro hne
    rw [hstep, setRecord_mus]
    simp only [discardName, hmid, hm]
    rw [if_neg (fun hc => hne (List.isEmpty_iff.mp hc))]
    exact alookup_aset_self _ _ _

theorem genFold_events_mono (dlId : Nat) {α : Type} (keyOf : α → Nat)
    (recOf : α → SymbolRecord) {e : Event} :
    ∀ (defs : List α) (s : SessionState), e ∈ s.events →
    e ∈ (defs.foldl
      (fun acc q => installStep dlId acc (keyOf q) (recOf q)) s).events := by
  intro defs
  induction defs with
  | nil => intro s h; exact h
  | cons q t ih =>
    intro s h
    exact ih _ (installStep_events_mono dlId _ _ _ h)

theorem genFold_discard (dlId : Nat) {α : Type} (keyOf : α → Nat)
    (recOf : α → SymbolRecord) (r : SymbolRecord) (m : Nat) (mu : MUState) :
    ∀ (defs : List α) (s : SessionState) (n : Nat),
    n ∈ defs.map keyOf →
    recordOf s dlId n = some r →
    r.muId = some m →
    (∃ mu', alookup m s.mus = some mu' ∧ n ∈ mu'.remaining ∧
      mu'.remaining.Sublist mu.remaining) →
    Event.discarded m n ∈
      (defs.foldl
        (fun acc q => installStep dlId acc (keyOf q) (recOf q)) s).events ∧
    (mu.remaining = [n] → Event.muDestroyed m ∈
      (defs.foldl
        (fun acc q => installStep dlId acc (keyOf q) (recOf q)) s).events)
    := by
  intro defs
  induction defs with
  | nil => intro s n h; simp at h
  | cons q t ih =>
    intro s n hmem hrec hmid hK
    obtain ⟨mu', hm', hn', hsub⟩ := hK
    by_cases hx : keyOf q = n
    · have hstep : installStep dlId s (keyOf q) (recOf q) =
          setRecord (discardName s (keyOf q) r) dlId (keyOf q) (recOf q)
          := by
        simp only [installStep, hx, hrec]
      constructor
      · rw [List.foldl_cons]
        apply genFold_events_mono
        rw [hstep, setRecord_events, hx]
        exact discardName_discarded s n m r mu' hmid hm'
      · intro hone
        have hmu' : mu'.remaining = [n] :=
          sublist_singleton_of_mem (hone ▸ hsub) hn'
        rw [List.foldl_cons]
        apply genFold_events_mono
        rw [hstep, setRecord_events, hx]
        exact discardName_destroyed s n m r mu' hmid hm' hmu'
    · have hnt : n ∈ t.map keyOf := by
        rw [List.map_cons] at hmem
        rcases List.mem_cons.mp hmem with h1 | h1
        · exact absurd h1.symm hx
        · exact h1
      apply ih _ _ hnt
      · rw [installStep_recordOf_other dlId s (keyOf q) (recOf q)
          (fun hc => hx hc.2.symm)]
        exact hrec
      · exact hmid
      · obtain ⟨mu'', hm'', hn'', hsub''⟩ :=
          installStep_mu_pres dlId s (keyOf q) (recOf q) hm' hn'
            (fun hc => hx hc)
        exact ⟨mu'', hm'', hn'', hsub''.trans hsub⟩

theorem genFold_recordOf_pres (dlId : Nat) {α : Type} (keyOf : α → Nat)
    (recOf : α → SymbolRecord) :
    ∀ (defs : List α) (s : SessionState) (n : Nat),
    (∀ q ∈ defs, keyOf q ≠ n) →
    recordOf (defs.foldl
      (fun acc q => installStep dlId acc (keyOf q) (recOf q)) s) dlId n
      = recordOf s dlId n := by
  intro defs
  induction defs with
  | nil => intro s n h; rfl
  | cons q t ih =>
    intro s n h
    rw [List.foldl_cons, ih _ _ (fun p hp => h p (List.mem_cons_of_mem _ hp)),
      installStep_recordOf_other dlId s (keyOf q) (recOf q)
        (fun hc => h q (List.mem_cons_self _ _) hc.2.symm)]

theorem genFold_sets (dlId : Nat) {α : Type} (keyOf : α → Nat)
    (recOf : α → SymbolRecord) :
    ∀ (defs : List α) (s : SessionState) (dl : Dylib),
    alookup dlId s.dylibs = some dl →
    (defs.map keyOf).Nodup →
    ∀ p ∈ defs,
    recordOf (defs.foldl
      (fun acc q => installStep dlId acc (keyOf q) (recOf q)) s) dlId
      (keyOf p) = some (recOf p) := by
  intro defs
  induction defs with
  | nil => intro s dl hdl hnd p hp; simp at hp
  | cons q t ih =>
    intro s dl hdl hnd p hp
    obtain ⟨dl', hdl'⟩ := installStep_dylib_pres dlId s (keyOf q) (recOf q)
      hdl
    have hnd2 : keyOf q ∉ t.map keyOf ∧ (t.map keyOf).Nodup := by
      rw [List.map_cons] at hnd
      exact List.nodup_cons.mp hnd
    rcases List.mem_cons.mp hp with h1 | h1
    · subst h1
      rw [List.foldl_cons, genFold_recordOf_pres dlId keyOf recOf t _
        (keyOf p) ?_]
      · exact installStep_recordOf_self dlId s (keyOf p) (recOf p) hdl
      · intro q2 hq2 hc
        exact hnd2.1 (List.mem_map.mpr ⟨q2, hq2, hc⟩)
    · rw [List.foldl_cons]
      exact ih _ dl' hdl' hnd2.2 p h1

theorem genFold_destroys (dlId m : Nat) {α : Type} (keyOf : α → Nat)
    (recOf : α → SymbolRecord) :
    ∀ (defs : List α) (s : SessionState) (mu' : MUState),
    alookup m s.mus = some mu' →
    mu'.remaining ≠ [] →
    (∀ x ∈ mu'.remaining, x ∈ defs.map keyOf ∧ ∃ rx,
      recordOf s dlId x = some rx ∧ rx.muId = some m) →
    Event.muDestroyed m ∈
      (defs.foldl
        (fun acc q => installStep dlId acc (keyOf q) (recOf q)) s).events
    := by
  intro defs
  induction defs with
  | nil =>
    intro s mu' hm hne hall
    obtain ⟨x, hx⟩ := List.exists_mem_of_ne_nil _ hne
    have hx2 := (hall x hx).1
    simp at hx2
  | cons q t ih =>
    intro s mu' hm hne hall
    rw [List.foldl_cons]
    by_cases hx0 : keyOf q ∈ mu'.remaining
    · obtain ⟨-, r0, hrec0, hmid0⟩ := hall (keyOf q) hx0
      have hstep := installStep_mu_discard dlId s (keyOf q) m mu' r0
        (recOf q) hm hrec0 hmid0
      by_cases hemp :
          mu'.remaining.filter (fun y => decide (y ≠ keyOf q)) = []
      · exact genFold_events_mono dlId keyOf recOf t _ (hstep.1 hemp)
      · refine ih (installStep dlId s (keyOf q) (recOf q))
          { mu' with remaining :=
              mu'.remaining.filter (fun y => decide (y ≠ keyOf q)) }
          (hstep.2 hemp) hemp ?_
        intro x hx
        have hxf := List.mem_filter.mp hx
        have hxne : x ≠ keyOf q := by simpa using hxf.2
        obtain ⟨hxl, rx, hrx, hmx⟩ := hall x hxf.1
        refine ⟨?_, rx, ?_, hmx⟩
        · rw [List.map_cons] at hxl
          rcases List.mem_cons.mp hxl with h1 | h1
          · exact absurd h1 hxne
          · exact h1
        · rw [installStep_recordOf_other dlId s (keyOf q) (recOf q)
            (fun hc => hxne hc.2)]
          exact hrx
    · obtain ⟨xw, hxw⟩ := List.exists_mem_of_ne_nil _ hne
      have hxwne : keyOf q ≠ xw := fun hc => hx0 (hc ▸ hxw)
      obtain ⟨mu'', hm'', hxw'', hsub''⟩ :=
        installStep_mu_pres dlId s (keyOf q) (recOf q) hm hxw hxwne
      refine ih (installStep dlId s (keyOf q) (recOf q)) mu'' hm''
        (fun hc => by rw [hc] at hxw''; simp at hxw'') ?_
      intro x hx
      have hxmem : x ∈ mu'.remaining := hsub''.subset hx
      have hxne : x ≠ keyOf q := fun hc => hx0 (hc ▸ hxmem)
      obtain ⟨hxl, rx, hrx, hmx⟩ := hall x hxmem
      refine ⟨?_, rx, ?_, hmx⟩
      · rw [List.map_cons] at hxl
        rcases List.mem_cons.mp hxl with h1 | h1
        · exact absurd h1 hxne
        · exact h1
      · rw [installStep_recordOf_other dlId s (keyOf q) (recOf q)
          (fun hc => hxne hc.2)]
        exact hrx

/-! ### Claim C4 -/

/-- C4: a `define` call — absolute, via a materialization unit, or via
aliases — that includes a name already defined in the dylib succeeds — with
the new definition superseding the old one, the prior MU receiving `discard`
for each superseded name and an MU that has thereby lost all of its names
(even several superseded by the one call) being destroyed — if and only if
every such prior definition is Weak and has not begun materializing;
otherwise (prior non-Weak, or already materializing even if Weak) the call
fails with DuplicateDefinition. -/
theorem C4_define_supersession (st : SessionState) (dlId : Nat) (dl : Dylib)
    (hdl : alookup dlId st.dylibs = some dl) :
    (∀ (defs : List (Nat × EvaluatedSymbol)) (n : Nat)
       (sym : EvaluatedSymbol) (r : SymbolRecord),
      (n, sym) ∈ defs → alookup n dl.symbols = some r →
      (r.flags.weak = false ∨ r.stage ≠ .neverSearched) →
      ∃ m, defineAbsolute st dlId defs = .error (.duplicateDefinition m)) ∧
    (∀ (decl : List (Nat × SymbolFlags)) (behavior : MUBehavior) (n : Nat)
       (fl : SymbolFlags) (r : SymbolRecord),
      (n, fl) ∈ decl → alookup n dl.symbols = some r →
      (r.flags.weak = false ∨ r.stage ≠ .neverSearched) →
      ∃ m, defineMU st dlId decl behavior
        = .error (.duplicateDefinition m)) ∧
    (∀ (al : List (Nat × Nat × SymbolFlags)) (n src : Nat)
       (fl : SymbolFlags) (r : SymbolRecord),
      (n, src, fl) ∈ al → alookup n dl.symbols = some r →
      (r.flags.weak = false ∨ r.stage ≠ .neverSearched) →
      ∃ m, defineAliases st dlId al = .error (.duplicateDefinition m)) ∧
    (∀ (defs : List (Nat × EvaluatedSymbol)),
      (∀ p ∈ defs, ∀ r, alookup p.1 dl.symbols = some r →
        r.flags.weak = true ∧ r.stage = .neverSearched) →
      ∃ st', defineAbsolute st dlId defs = .ok st' ∧
        (∀ p ∈ defs, ∀ r m mu, alookup p.1 dl.symbols = some r →
          r.muId = some m → alookup m st.mus = some mu →
          p.1 ∈ mu.remaining →
          Event.discarded m p.1 ∈ st'.events ∧
          (mu.remaining = [p.1] → Event.muDestroyed m ∈ st'.events)) ∧
        (∀ m mu, alookup m st.mus = some mu → mu.remaining ≠ [] →
          (∀ x ∈ mu.remaining, x ∈ defs.map (·.1) ∧ ∃ rx,
            alookup x dl.symbols = some rx ∧ rx.muId = some m) →
          Event.muDestroyed m ∈ st'.events) ∧
        ((defs.map (·.1)).Nodup →
          ∀ p ∈ defs, recordOf st' dlId p.1 = some (absRecord p.2))) ∧
    (∀ (decl : List (Nat × SymbolFlags)) (behavior : MUBehavior),
      (∀ p ∈ decl, ∀ r, alookup p.1 dl.symbols = some r →
        r.flags.weak = true ∧ r.stage = .neverSearched) →
      ∃ st', defineMU st dlId decl behavior = .ok st' ∧
        (∀ p ∈ decl, ∀ r m mu, alookup p.1 dl.symbols = some r →
          r.muId = some m → m ≠ st.nextMuId → alookup m st.mus = some mu →
          p.1 ∈ mu.remaining →
          Event.discarded m p.1 ∈ st'.events ∧
          (mu.remaining = [p.1] → Event.muDestroyed m ∈ st'.events)) ∧
        (∀ m mu, m ≠ st.nextMuId → alookup m st.mus = some mu →
          mu.remaining ≠ [] →
          (∀ x ∈ mu.remaining, x ∈ decl.map (·.1) ∧ ∃ rx,
            alookup x dl.symbols = some rx ∧ rx.muId = some m) →
          Event.muDestroyed m ∈ st'.events) ∧
        ((decl.map (·.1)).Nodup →
          ∀ p ∈ decl, recordOf st' dlId p.1
            = some (lazyRecord p.2 st.nextMuId))) ∧
    (∀ (al : List (Nat × Nat × SymbolFlags)),
      (∀ p ∈ al, ∀ r, alookup p.1 dl.symbols = some r →
        r.flags.weak = true ∧ r.stage = .neverSearched) →
      ∃ st', defineAliases st dlId al = .ok st' ∧
        (∀ p ∈ al, ∀ r m mu, alookup p.1 dl.symbols = some r →
          r.muId = some m → alookup m st.mus = some mu →
          p.1 ∈ mu.remaining →
          Event.discarded m p.1 ∈ st'.events ∧
          (mu.remaining = [p.1] → Event.muDestroyed m ∈ st'.events)) ∧
        (∀ m mu, alookup m st.mus = some mu → mu.remaining ≠ [] →
          (∀ x ∈ mu.remaining, x ∈ al.map (·.1) ∧ ∃ rx,
            alookup x dl.symbols = some rx ∧ rx.muId = some m) →
          Event.muDestroyed m ∈ st'.events) ∧
        ((al.map (·.1)).Nodup →
          ∀ p ∈ al, recordOf st' dlId p.1
            = some (aliasRecord p.2.2 p.2.1))) := by
  refine ⟨?_, ?_, ?_, ?_, ?_, ?_⟩
  · intro defs n sym r hmem hr hbad
    have hconf : defineConflict dl n = true := by
      simp only [defineConflict, hr]
      rcases hbad with h | h
      · simp [h]
      · simp [beq_iff_eq, h]
    have hsome : (defs.find? (fun p => defineConflict dl p.1)).isSome :=
      List.find?_isSome.mpr ⟨(n, sym), hmem, hconf⟩
    obtain ⟨q, hq⟩ := Option.isSome_iff_exists.mp hsome
    refine ⟨q.1, ?_⟩
    simp only [defineAbsolute, hdl, hq]
  · intro decl behavior n fl r hmem hr hbad
    have hconf : defineConflict dl n = true := by
      simp only [defineConflict, hr]
      rcases hbad with h | h
      · simp [h]
      · simp [beq_iff_eq, h]
    have hsome : (decl.find? (fun p => defineConflict dl p.1)).isSome :=
      List.find?_isSome.mpr ⟨(n, fl), hmem, hconf⟩
    obtain ⟨q, hq⟩ := Option.isSome_iff_exists.mp hsome
    refine ⟨q.1, ?_⟩
    simp only [defineMU, hdl, hq]
  · intro al n src fl r hmem hr hbad
    have hconf : defineConflict dl n = true := by
      simp only [defineConflict, hr]
      rcases hbad with h | h
      · simp [h]
      · simp [beq_iff_eq, h]
    have hsome : (al.find? (fun p => defineConflict dl p.1)).isSome :=
      List.find?_isSome.mpr ⟨(n, src, fl), hmem, hconf⟩
    obtain ⟨q, hq⟩ := Option.isSome_iff_exists.mp hsome
    refine ⟨q.1, ?_⟩
    simp only [defineAliases, hdl, hq]
  · intro defs hgood
    have hfind : defs.find? (fun p => defineConflict dl p.1) = none := by
      rw [List.find?_eq_none]
      intro p hp
      cases hrp : alookup p.1 dl.symbols with
      | none => simp [defineConflict, hrp]
      | some r =>
          obtain ⟨hw, hs⟩ := hgood p hp r hrp
          simp [defineConflict, hrp, hw, hs]
    refine ⟨defs.foldl (fun acc q => installAbsOne acc dlId q.1 q.2) st,
      ?_, ?_, ?_, ?_⟩
    · simp only [defineAbsolute, hdl, hfind]
    · intro p hp r m mu hr hmid hmu hrem
      refine installFold_discard dlId r m mu defs st p.1
        (List.mem_map.mpr ⟨p, hp, rfl⟩) ?_ hmid
        ⟨mu, hmu, hrem, List.Sublist.refl _⟩
      simp [recordOf, hdl, hr]
    · intro m mu hmu hne hall
      rw [absFold_eq]
      refine genFold_destroys dlId m (fun q => q.1)
        (fun q => absRecord q.2) defs st mu hmu hne ?_
      intro x hx
      obtain ⟨hxn, rx, hrx, hmx⟩ := hall x hx
      exact ⟨hxn, rx, by simp [recordOf, hdl, hrx], hmx⟩
    · intro hnd p hp
      exact installFold_sets dlId defs st dl hdl hnd p hp
  · intro decl behavior hgood
    have hfind : decl.find? (fun p => defineConflict dl p.1) = none := by
      rw [List.find?_eq_none]
      intro p hp
      cases hrp : alookup p.1 dl.symbols with
      | none => simp [defineConflict, hrp]
      | some r =>
          obtain ⟨hw, hs⟩ := hgood p hp r hrp
          simp [defineConflict, hrp, hw, hs]
    have hdlb : alookup dlId (muBase st dlId decl behavior).dylibs
        = some dl := hdl
    refine ⟨decl.foldl
        (fun acc q => installStep dlId acc q.1 (lazyRecord q.2 st.nextMuId))
        (muBase st dlId decl behavior), ?_, ?_, ?_, ?_⟩
    · simp only [defineMU, hdl, hfind]
      rw [lazyFold_eq]
      rfl
    · intro p hp r m mu hr hmid hmne hmu hrem
      refine genFold_discard dlId (fun q => q.1)
        (fun q => lazyRecord q.2 st.nextMuId) r m mu decl
        (muBase st dlId decl behavior) p.1
        (List.mem_map.mpr ⟨p, hp, rfl⟩) ?_ hmid
        ⟨mu, ?_, hrem, List.Sublist.refl _⟩
      · rw [recordOf_eq_of_dylibs (muBase_dylibs st dlId decl behavior)]
        simp [recordOf, hdl, hr]
      · rw [muBase_mus_other st dlId decl behavior hmne]
        exact hmu
    · intro m mu hmne hmu hne hall
      refine genFold_destroys dlId m (fun q => q.1)
        (fun q => lazyRecord q.2 st.nextMuId) decl
        (muBase st dlId decl behavior) mu ?_ hne ?_
      · rw [muBase_mus_other st dlId decl behavior hmne]
        exact hmu
      · intro x hx
        obtain ⟨hxn, rx, hrx, hmx⟩ := hall x hx
        refine ⟨hxn, rx, ?_, hmx⟩
        rw [recordOf_eq_of_dylibs (muBase_dylibs st dlId decl behavior)]
        simp [recordOf, hdl, hrx]
    · intro hnd p hp
      exact genFold_sets dlId (fun q => q.1)
        (fun q => lazyRecord q.2 st.nextMuId) decl
        (muBase st dlId decl behavior) dl hdlb hnd p hp
  · intro al hgood
    have hfind : al.find? (fun p => defineConflict dl p.1) = none := by
      rw [List.find?_eq_none]
      intro p hp
      cases hrp : alookup p.1 dl.symbols with
      | none => simp [defineConflict, hrp]
      | some r =>
          obtain ⟨hw, hs⟩ := hgood p hp r hrp
          simp [defineConflict, hrp, hw, hs]
    refine ⟨al.foldl
        (fun acc q => installStep dlId acc q.1 (aliasRecord q.2.2 q.2.1))
        st, ?_, ?_, ?_, ?_⟩
    · simp only [defineAliases, hdl, hfind]
      rw [aliasFold_eq]
    · intro p hp r m mu hr hmid hmu hrem
      refine genFold_discard dlId (fun q => q.1)
        (fun q => aliasRecord q.2.2 q.2.1) r m mu al st p.1
        (List.mem_map.mpr ⟨p, hp, rfl⟩) ?_ hmid
        ⟨mu, hmu, hrem, List.Sublist.refl _⟩
      simp [recordOf, hdl, hr]
    · intro m mu hmu hne hall
      refine genFold_destroys dlId m (fun q => q.1)
        (fun q => aliasRecord q.2.2 q.2.1) al st mu hmu hne ?_
      intro x hx
      obtain ⟨hxn, rx, hrx, hmx⟩ := hall x hx
      exact ⟨hxn, rx, by simp [recordOf, hdl, hrx], hmx⟩
    · intro hnd p hp
      exact genFold_sets dlId (fun q => q.1)
        (fun q => aliasRecord q.2.2 q.2.1) al st dl hdl hnd p hp

/-- Witness for C4: the weak-supersession and duplicate-definition test
scenarios behave exactly as the claim states; moreover one absolute define
call superseding both names of the weak MU destroys it, and defineMU and
defineAliases calls supersede a weak unmaterialized name just as the
absolute one does. -/
theorem C4_define_supersession_witness :
    (∃ m, defineMU c4wst2 0 [(fooN, expFlags)] .capture
      = .error (.duplicateDefinition m)) ∧
    (∃ st', defineAbsolute c4st2 0 [(barN, barEval)] = .ok st' ∧
      Event.discarded 0 barN ∈ st'.events ∧
      Event.muDestroyed 0 ∈ st'.events ∧
      recordOf st' 0 barN = some (absRecord barEval)) ∧
    (∃ st', defineAbsolute c4st1 0 [(fooN, fooEval), (barN, barEval)]
        = .ok st' ∧ Event.muDestroyed 0 ∈ st'.events) ∧
    (∃ st', defineMU c4st1 0 [(fooN, weakExpFlags)] .capture = .ok st' ∧
      Event.discarded 0 fooN ∈ st'.events ∧
      recordOf st' 0 fooN = some (lazyRecord weakExpFlags 1)) ∧
    (∃ st', defineAliases c4st1 0 [(barN, fooN, expFlags)] = .ok st' ∧
      Event.discarded 0 barN ∈ st'.events ∧
      recordOf st' 0 barN = some (aliasRecord expFlags fooN)) := by
  refine ⟨?_, ?_, ?_, ?_, ?_⟩
  · exact (C4_define_supersession c4wst2 0 _ rfl).2.1 [(fooN, expFlags)]
      .capture fooN expFlags
      ⟨weakExpFlags, none, .materializing, some 0, none, false, false, []⟩
      (by decide) (by decide) (Or.inr (by decide))
  · obtain ⟨st', hok, hdisc, -, hset⟩ :=
      (C4_define_supersession c4st2 0 _ rfl).2.2.2.1 [(barN, barEval)] (by
        intro p hp r hr
        rw [List.mem_singleton] at hp
        subst hp
        have h2 : r = lazyRecord weakExpFlags 0 := by
          have h3 : some r = some (lazyRecord weakExpFlags 0) := by
            rw [← hr]
            decide
          exact Option.some_inj.mp h3
        subst h2
        exact ⟨rfl, rfl⟩)
    have h1 := hdisc (barN, barEval) (by decide)
      (lazyRecord weakExpFlags 0) 0 ⟨[(fooN, weakExpFlags),
        (barN, weakExpFlags)], [barN], .capture, 0⟩ (by decide) (by decide)
      (by decide) (by decide)
    exact ⟨st', hok, h1.1, h1.2 (by decide),
      hset (by decide) (barN, barEval) (by decide)⟩
  · obtain ⟨st', hok, -, hdest, -⟩ :=
      (C4_define_supersession c4st1 0 _ rfl).2.2.2.1
        [(fooN, fooEval), (barN, barEval)] (by
        intro p hp r hr
        rcases List.mem_cons.mp hp with h1 | h1
        · subst h1
          have h3 : some r = some (lazyRecord weakExpFlags 0) := by
            rw [← hr]
            decide
          rw [Option.some_inj.mp h3]
          exact ⟨rfl, rfl⟩
        · rw [List.mem_singleton] at h1
          subst h1
          have h3 : some r = some (lazyRecord weakExpFlags 0) := by
            rw [← hr]
            decide
          rw [Option.some_inj.mp h3]
          exact ⟨rfl, rfl⟩)
    refine ⟨st', hok, hdest 0 ⟨[(fooN, weakExpFlags), (barN, weakExpFlags)],
      [fooN, barN], .capture, 0⟩ (by decide) (by decide) ?_⟩
    intro x hx
    rcases List.mem_cons.mp hx with h1 | h1
    · subst h1
      exact ⟨by decide, lazyRecord weakExpFlags 0, by decide, rfl⟩
    · rw [List.mem_singleton] at h1
      subst h1
      exact ⟨by decide, lazyRecord weakExpFlags 0, by decide, rfl⟩
  · obtain ⟨st', hok, hdisc, -, hset⟩ :=
      (C4_define_supersession c4st1 0 _ rfl).2.2.2.2.1
        [(fooN, weakExpFlags)] .capture (by
        intro p hp r hr
        rw [List.mem_singleton] at hp
        subst hp
        have h3 : some r = some (lazyRecord weakExpFlags 0) := by
          rw [← hr]
          decide
        rw [Option.some_inj.mp h3]
        exact ⟨rfl, rfl⟩)
    have h1 := hdisc (fooN, weakExpFlags) (by decide)
      (lazyRecord weakExpFlags 0) 0 ⟨[(fooN, weakExpFlags),
        (barN, weakExpFlags)], [fooN, barN], .capture, 0⟩ (by decide)
      (by decide) (by decide) (by decide) (by decide)
    exact ⟨st', hok, h1.1,
      hset (by decide) (fooN, weakExpFlags) (by decide)⟩
  · obtain ⟨st', hok, hdisc, -, hset⟩ :=
      (C4_define_supersession c4st1 0 _ rfl).2.2.2.2.2
        [(barN, fooN, expFlags)] (by
        intro p hp r hr
        rw [List.mem_singleton] at hp
        subst hp
        have h3 : some r = some (lazyRecord weakExpFlags 0) := by
          rw [← hr]
          decide
        rw [Option.some_inj.mp h3]
        exact ⟨rfl, rfl⟩)
    have h1 := hdisc (barN, fooN, expFlags) (by decide)
      (lazyRecord weakExpFlags 0) 0 ⟨[(fooN, weakExpFlags),
        (barN, weakExpFlags)], [fooN, barN], .capture, 0⟩ (by decide)
      (by decide) (by decide) (by decide)
    exact ⟨st', hok, h1.1,
      hset (by decide) (barN, fooN, expFlags) (by decide)⟩

/-! ### Claim C5 -/

theorem updateRecord_frame (st : SessionState) (d n : Nat)
    (f : SymbolRecord → SymbolRecord) :
    (updateRecord st d n f).queries = st.queries ∧
    (updateRecord st d n f).events = st.events ∧
    (updateRecord st d n f).mus = st.mus := by
  unfold updateRecord
  cases recordOf st d n with
  | none => exact ⟨rfl, rfl, rfl⟩
  | some r =>
      exact ⟨setRecord_queries _ _ _ _, setRecord_events _ _ _ _,
        setRecord_mus _ _ _ _⟩

theorem updateFold_frame (d : Nat) (f : SymbolRecord → SymbolRecord) :
    ∀ (l : List Nat) (s : SessionState),
    (l.foldl (fun acc n => updateRecord acc d n f) s).queries = s.queries ∧
    (l.foldl (fun acc n => updateRecord acc d n f) s).events = s.events := by
  intro l
  induction l with
  | nil => intro s; exact ⟨rfl, rfl⟩
  | cons x t ih =>
    intro s
    have hstep := updateRecord_frame s d x f
    have ht := ih (updateRecord s d x f)
    exact ⟨ht.1.trans hstep.1, ht.2.trans hstep.2.1⟩

/-- C5: when an MR fails materialization, every pending query that targets
any of the MU's declared names completes with a FailedToMaterialize error
whose carried symbol set is the full declared set, and the query is removed
from the pending set. -/
theorem C5_fail_materialization (st : SessionState) (m : Nat) (mu : MUState)
    (q : Query) (hmu : alookup m st.mus = some mu) (hq : q ∈ st.queries)
    (ht : targetsDeclared mu.dylib (mu.declared.map (·.1)) q = true) :
    Event.queryCompleted q.qid (QueryResult.failure
      (.failedToMaterialize (mu.declared.map (·.1))))
      ∈ (failMaterialization st m).events ∧
    q ∉ (failMaterialization st m).queries := by
  simp only [failMaterialization, hmu]
  have hfold := updateFold_frame mu.dylib (fun r => { r with failed := true })
    (mu.declared.map (·.1)) st
  constructor
  · apply List.mem_append_left
    apply List.mem_map.mpr
    refine ⟨q, ?_, rfl⟩
    apply List.mem_filter.mpr
    refine ⟨?_, ht⟩
    rw [hfold.1]
    exact hq
  · intro hmem
    have h2 := (List.mem_filter.mp hmem).2
    rw [ht] at h2
    simp at h2

/-- Witness for C5 at the resolution-failure scenario: the pending Ready
query for Foo and Bar fails with FailedToMaterialize carrying both names. -/
theorem C5_fail_materialization_witness :
    Event.queryCompleted 0 (QueryResult.failure
      (.failedToMaterialize [fooN, barN]))
      ∈ (failMaterialization c5st2 0).events ∧
    (⟨0, [(0, fooN), (0, barN)], .ready⟩ : Query)
      ∉ (failMaterialization c5st2 0).queries :=
  C5_fail_materialization c5st2 0
    ⟨[(fooN, weakExpFlags), (barN, weakExpFlags)], [fooN, barN], .capture, 0⟩
    ⟨0, [(0, fooN), (0, barN)], .ready⟩ (by decide) (by decide) (by decide)

/-! ### Claim C6 -/

theorem installFold_frame (dlId : Nat) :
    ∀ (defs : List (Nat × EvaluatedSymbol)) (s : SessionState),
    (∀ p ∈ defs, recordOf s dlId p.1 = none ∨
      ∃ r, recordOf s dlId p.1 = some r ∧ r.muId = none) →
    (defs.foldl (fun acc q => installAbsOne acc dlId q.1 q.2) s).events
        = s.events ∧
    (defs.foldl (fun acc q => installAbsOne acc dlId q.1 q.2) s).mus
        = s.mus ∧
    (defs.foldl (fun acc q => installAbsOne acc dlId q.1 q.2) s).queries
        = s.queries ∧
    (∀ d' n' r, recordOf s d' n' = some r →
      (d' = dlId → n' ∉ defs.map (·.1)) →
      recordOf (defs.foldl (fun acc q => installAbsOne acc dlId q.1 q.2) s)
        d' n' = some r) := by
  intro defs
  induction defs with
  | nil =>
    intro s hg
    exact ⟨rfl, rfl, rfl, fun d' n' r hr _ => hr⟩
  | cons q t ih =>
    intro s hg
    have hframe := installAbsOne_frame s dlId q.1 q.2
      (hg q (List.mem_cons_self _ _))
    have hg' : ∀ p ∈ t, recordOf (installAbsOne s dlId q.1 q.2) dlId p.1
        = none ∨ ∃ r, recordOf (installAbsOne s dlId q.1 q.2) dlId p.1
        = some r ∧ r.muId = none := by
      intro p hp
      by_cases hpq : p.1 = q.1
      · cases hdl : alookup dlId s.dylibs with
        | none =>
          have hnone : recordOf s dlId p.1 = none := by
            simp [recordOf, hdl]
          rw [show installAbsOne s dlId q.1 q.2 = s from ?_]
          · exact Or.inl hnone
          · have hq0 : recordOf s dlId q.1 = none := by
              simp [recordOf, hdl]
            simp only [installAbsOne, hq0, setRecord, hdl]
        | some dl =>
          right
          rw [hpq]
          exact ⟨absRecord q.2,
            installAbsOne_recordOf_self s dlId q.1 q.2 hdl, rfl⟩
      · rw [installAbsOne_recordOf_other s dlId q.1 q.2
          (fun hc => hpq hc.2)]
        exact hg p (List.mem_cons_of_mem _ hp)
    obtain ⟨he, hm, hqr, hrec⟩ := ih (installAbsOne s dlId q.1 q.2) hg'
    refine ⟨he.trans hframe.1, hm.trans hframe.2.1, hqr.trans hframe.2.2,
      ?_⟩
    intro d' n' r hr hcond
    apply hrec
    · rw [installAbsOne_recordOf_other s dlId q.1 q.2 ?hne]
      · exact hr
      case hne =>
        rintro ⟨hd, hn⟩
        exact hcond hd (hn ▸ List.mem_cons_self _ _)
    · intro hd hmem
      exact hcond hd (List.mem_cons_of_mem _ hmem)

theorem fresh_keys_not_defined (dlId : Nat) (rem : List Nat)
    (s : SessionState) (defs : List (Nat × EvaluatedSymbol))
    {d' n' : Nat} {r : SymbolRecord} (hr : recordOf s d' n' = some r)
    (hd : d' = dlId) :
    n' ∉ (defs.filter (fun p => rem.contains p.1 &&
      !definedIn s dlId p.1)).map (·.1) := by
  intro hmem
  obtain ⟨p, hp, hp1⟩ := List.mem_map.mp hmem
  have h3 := (List.mem_filter.mp hp).2
  have hnd : definedIn s dlId p.1 = false := by
    cases hd2 : definedIn s dlId p.1 with
    | false => rfl
    | true => rw [hd2] at h3; simp at h3
  subst hp1
  rw [hd] at hr
  simp [definedIn, hr] at hnd

theorem runGenerators_pres (dlId : Nat) :
    ∀ (gens : List GenBehavior) (rem : List Nat) (s s' : SessionState)
      (res : Except CoreError (List Nat)),
    runGenerators s dlId gens rem = (s', res) →
    s'.events = s.events ∧ s'.mus = s.mus ∧ s'.queries = s.queries ∧
    (∀ d' n' r, recordOf s d' n' = some r → recordOf s' d' n' = some r)
    := by
  intro gens
  induction gens with
  | nil =>
    intro rem s s' res h
    simp only [runGenerators] at h
    cases h
    exact ⟨rfl, rfl, rfl, fun _ _ _ hr => hr⟩
  | cons g rest ih =>
    intro rem s s' res h
    cases hrem : rem.isEmpty with
    | true =>
      simp only [runGenerators] at h
      rw [if_pos hrem] at h
      cases h
      exact ⟨rfl, rfl, rfl, fun _ _ _ hr => hr⟩
    | false =>
      cases g with
      | genFail e =>
        simp only [runGenerators] at h
        rw [if_neg (by simp [hrem])] at h
        cases h
        exact ⟨rfl, rfl, rfl, fun _ _ _ hr => hr⟩
      | installAbsolute defs =>
        simp only [runGenerators] at h
        rw [if_neg (by simp [hrem])] at h
        cases hda : defineAbsolute s dlId (defs.filter (fun p =>
            rem.contains p.1 && !definedIn s dlId p.1)) with
        | error e =>
          rw [hda] at h
          cases h
          exact ⟨rfl, rfl, rfl, fun _ _ _ hr => hr⟩
        | ok s1 =>
          rw [hda] at h
          -- `defineAbsolute` succeeded, so the target dylib exists, there is
          -- no admission conflict, and `s1` is the installation fold.
          have hfold : s1 = (defs.filter (fun p =>
              rem.contains p.1 && !definedIn s dlId p.1)).foldl
              (fun acc q => installAbsOne acc dlId q.1 q.2) s := by
            cases hdl : alookup dlId s.dylibs with
            | none => simp [defineAbsolute, hdl] at hda
            | some dl =>
              simp only [defineAbsolute, hdl] at hda
              cases hfind : (defs.filter (fun p =>
                  rem.contains p.1 && !definedIn s dlId p.1)).find?
                  (fun p => defineConflict dl p.1) with
              | some p =>
                rw [hfind] at hda
                simp at hda
              | none =>
                rw [hfind] at hda
                injection hda with hda
                exact hda.symm
          have hfresh : ∀ p ∈ defs.filter (fun p =>
              rem.contains p.1 && !definedIn s dlId p.1),
              recordOf s dlId p.1 = none ∨
              ∃ r, recordOf s dlId p.1 = some r ∧ r.muId = none := by
            intro p hp
            have h2 := (List.mem_filter.mp hp).2
            have hnd : definedIn s dlId p.1 = false := by
              cases hd2 : definedIn s dlId p.1 with
              | false => rfl
              | true => rw [hd2] at h2; simp at h2
            left
            simp only [definedIn] at hnd
            exact Option.not_isSome_iff_eq_none.mp (by simp [hnd])
          obtain ⟨he1, hm1, hq1, hrec1⟩ :=
            installFold_frame dlId _ s hfresh
          rw [← hfold] at he1 hm1 hq1 hrec1
          split at h
          · rename_i x0 e0 heq0
            exact absurd heq0 (by simp)
          · rename_i x0 st0 heq0
            injection heq0 with heq0
            subst heq0
            split at h
            · rename_i x1 s2 e2 heq2
              injection h with h1 h2
              subst h1
              obtain ⟨he2, hm2, hq2, hrec2⟩ := ih _ s1 s2 _ heq2
              refine ⟨he2.trans he1, hm2.trans hm1, hq2.trans hq1, ?_⟩
              intro d' n' r hr
              exact hrec2 d' n' r (hrec1 d' n' r hr
                (fun hd => fresh_keys_not_defined dlId rem s defs hr hd))
            · rename_i x1 s2 cl2 heq2
              injection h with h1 h2
              subst h1
              obtain ⟨he2, hm2, hq2, hrec2⟩ := ih _ s1 s2 _ heq2
              refine ⟨he2.trans he1, hm2.trans hm1, hq2.trans hq1, ?_⟩
              intro d' n' r hr
              exact hrec2 d' n' r (hrec1 d' n' r hr
                (fun hd => fresh_keys_not_defined dlId rem s defs hr hd))

/-- C6: a successful `lookup_flags` call invokes no MU's `materialize`
(the materialize-invocation count is unchanged), leaves the lifecycle stage
of every pre-existing symbol record unchanged, and maps every queried name
that has a definition in the dylib to its declared flags even when its MU
has not yet run. -/
theorem C6_lookup_flags_laziness (st : SessionState) (dlId : Nat)
    (names : List Nat) (st' : SessionState)
    (fm : List (Nat × SymbolFlags))
    (h : lookupFlags st dlId names = (st', .ok fm)) :
    matCount st'.events = matCount st.events ∧
    (∀ d n r, recordOf st d n = some r →
      ∃ r', recordOf st' d n = some r' ∧ r'.stage = r.stage) ∧
    (∀ n ∈ names, ∀ r, recordOf st dlId n = some r → (n, r.flags) ∈ fm)
    := by
  cases hdl : alookup dlId st.dylibs with
  | none => simp [lookupFlags, hdl] at h
  | some dl =>
    simp only [lookupFlags, hdl] at h
    cases hrg : runGenerators st dlId dl.generators
        (names.filter (fun n => (alookup n dl.symbols).isNone)) with
    | mk s1 res =>
      rw [hrg] at h
      cases res with
      | error e => simp at h
      | ok claimed =>
        have hs1 : s1 = st' := congrArg Prod.fst h
        have hfm : names.filterMap (fun n => (alookup n dl.symbols).map
            (fun r => (n, r.flags))) ++ claimed.filterMap (fun n =>
            (recordOf s1 dlId n).map (fun r => (n, r.flags))) = fm := by
          have := congrArg Prod.snd h
          simpa using this
        obtain ⟨he, hm, hq, hrec⟩ :=
          runGenerators_pres dlId dl.generators _ st s1 _ hrg
        refine ⟨?_, ?_, ?_⟩
        · rw [← hs1, he]
        · intro d n r hr
          refine ⟨r, ?_, rfl⟩
          rw [← hs1]
          exact hrec d n r hr
        · intro n hn r hr
          have halk : alookup n dl.symbols = some r := by
            simpa [recordOf, hdl] using hr
          have hfound : (n, r.flags) ∈ names.filterMap (fun n =>
              (alookup n dl.symbols).map (fun r => (n, r.flags))) := by
            apply List.mem_filterMap.mpr
            refine ⟨n, hn, ?_⟩
            rw [halk]
            rfl
          rw [← hfm]
          exact List.mem_append_left _ hfound

/-- Witness for C6 at the lookup-flags test scenario: the flags lookup
leaves Bar's lazy record at NeverSearched and reports both defined names'
declared flags (including the Weak bit) without running Bar's MU. -/
theorem C6_lookup_flags_laziness_witness :
    (∃ r', recordOf c6st2 0 barN = some r' ∧
      r'.stage = SymbolStage.neverSearched) ∧
    (fooN, expFlags) ∈ [(fooN, expFlags), (barN, weakExpFlags)] ∧
    (barN, weakExpFlags) ∈ [(fooN, expFlags), (barN, weakExpFlags)] := by
  have h := C6_lookup_flags_laziness c6st2 0 [fooN, barN, bazN] c6st2
    [(fooN, expFlags), (barN, weakExpFlags)] rfl
  refine ⟨?_, ?_, ?_⟩
  · exact h.2.1 0 barN (lazyRecord weakExpFlags 0) (by decide)
  · exact h.2.2 fooN (by decide) (absRecord fooEval) (by decide)
  · exact h.2.2 barN (by decide) (lazyRecord weakExpFlags 0) (by decide)

/-! ### Claim C7 -/

theorem claimPhase_genErr (dlId : Nat) (dl : Dylib) (gs : List GenBehavior)
    (e : CoreError) (b : Bool) :
    ∀ (names : List Nat) (st : SessionState),
    alookup dlId st.dylibs = some dl →
    dl.generators = .genFail e :: gs →
    (∃ n ∈ names, alookup n dl.symbols = none) →
    claimPhase st [(dlId, b)] names = (st, .error e) := by
  intro names
  induction names with
  | nil =>
    intro st hdl hgen hex
    obtain ⟨n, hn, _⟩ := hex
    simp at hn
  | cons n0 rest ih =>
    intro st hdl hgen hex
    cases h0 : alookup n0 dl.symbols with
    | none =>
      have hscan : scanName st n0 [(dlId, b)] = (st, .genErr e) := by
        simp [scanName, hdl, h0, hgen, runGenerators]
      simp only [claimPhase, hscan]
    | some r =>
      have hex' : ∃ n ∈ rest, alookup n dl.symbols = none := by
        obtain ⟨n, hn, hu⟩ := hex
        rcases List.mem_cons.mp hn with h1 | h1
        · subst h1
          rw [h0] at hu
          cases hu
        · exact ⟨n, h1, hu⟩
      have hrec := ih st hdl hgen hex'
      by_cases hv : visibleRec b r = true
      · have hscan : scanName st n0 [(dlId, b)] = (st, .claimedBy dlId) := by
          simp only [scanName, hdl, h0]
          rw [if_pos hv]
        simp only [claimPhase, hscan, hrec]
      · have hscan : scanName st n0 [(dlId, b)] = (st, .nomatch) := by
          simp only [scanName, hdl, h0]
          rw [if_neg hv]
        simp only [claimPhase, hscan, hrec]

theorem not_contains_append (a : Nat) (l1 l2 : List Nat) :
    ((!l2.contains a) && (!l1.contains a)) = !((l1 ++ l2).contains a) := by
  by_cases h1 : a ∈ l1
  · simp [h1]
  · by_cases h2 : a ∈ l2
    · simp [h1, h2]
    · simp [h1, h2]

theorem runGenerators_append_fail (dlId : Nat) (e : CoreError)
    (gs2 : List GenBehavior) :
    ∀ (gs1 : List GenBehavior) (rem : List Nat) (s s1 : SessionState)
      (cl : List Nat),
    runGenerators s dlId gs1 rem = (s1, .ok cl) →
    rem.filter (fun x => !cl.contains x) ≠ [] →
    runGenerators s dlId (gs1 ++ .genFail e :: gs2) rem = (s1, .error e)
    := by
  intro gs1
  induction gs1 with
  | nil =>
    intro rem s s1 cl h hne
    simp only [runGenerators] at h
    injection h with h1 h2
    subst h1
    injection h2 with h3
    subst h3
    have hrem : rem ≠ [] := by
      intro hc
      rw [hc] at hne
      exact hne rfl
    simp only [List.nil_append, runGenerators]
    rw [if_neg (fun hc => hrem (List.isEmpty_iff.mp hc))]
  | cons g rest ih =>
    intro rem s s1 cl h hne
    cases hrem : rem.isEmpty with
    | true =>
      exfalso
      rw [List.isEmpty_iff.mp hrem] at hne
      exact hne rfl
    | false =>
      cases g with
      | genFail e2 =>
        simp only [runGenerators] at h
        rw [if_neg (by simp [hrem])] at h
        injection h with h1 h2
        exact Except.noConfusion h2
      | installAbsolute defs =>
        simp only [runGenerators] at h
        rw [if_neg (by simp [hrem])] at h
        cases hda : defineAbsolute s dlId (defs.filter (fun p =>
            rem.contains p.1 && !definedIn s dlId p.1)) with
        | error e2 =>
          rw [hda] at h
          injection h with h1 h2
          exact Except.noConfusion h2
        | ok st0 =>
          rw [hda] at h
          split at h
          · rename_i x0 e0 heq0
            exact absurd heq0 (by simp)
          · rename_i x0 st1 heq0
            injection heq0 with heq0
            subst heq0
            split at h
            · rename_i x1 s2 e2 heq2
              injection h with h1 h2
              exact Except.noConfusion h2
            · rename_i x1 s2 cl2 heq2
              injection h with h1 h2
              subst h1
              injection h2 with h3
              subst h3
              have hff : (rem.filter (fun x => !((defs.filter (fun p =>
                  rem.contains p.1 && !definedIn s dlId p.1)).map
                    (·.1)).contains x)).filter (fun x => !cl2.contains x) =
                  rem.filter (fun x => !((((defs.filter (fun p =>
                    rem.contains p.1 && !definedIn s dlId p.1)).map
                      (·.1)) ++ cl2).contains x)) := by
                rw [List.filter_filter]
                apply List.filter_congr
                intro a _
                exact not_contains_append a _ cl2
              have hres := ih (rem.filter (fun x => !((defs.filter (fun p =>
                  rem.contains p.1 && !definedIn s dlId p.1)).map
                    (·.1)).contains x)) st0 s2 cl2 heq2
                (by rw [hff]; exact hne)
              simp only [List.cons_append, runGenerators, hda,
                List.append_eq]
              rw [if_neg (by simp [hrem])]
              rw [hres]

theorem scanName_append (n : Nat) (sl2 : List (Nat × Bool)) :
    ∀ (sl1 : List (Nat × Bool)) (st st1 : SessionState),
    scanName st n sl1 = (st1, .nomatch) →
    scanName st n (sl1 ++ sl2) = scanName st1 n sl2 := by
  intro sl1
  induction sl1 with
  | nil =>
    intro st st1 h
    simp only [scanName] at h
    injection h with h1 h2
    subst h1
    rfl
  | cons p rest ih =>
    intro st st1 h
    obtain ⟨d, b⟩ := p
    cases hdl : alookup d st.dylibs with
    | none =>
      simp only [scanName, hdl] at h
      simp only [List.cons_append, scanName, hdl]
      exact ih st st1 h
    | some dl =>
      cases hrec : alookup n dl.symbols with
      | some r =>
        by_cases hv : visibleRec b r = true
        · simp only [scanName, hdl, hrec] at h
          rw [if_pos hv] at h
          injection h with h1 h2
          exact ScanOut.noConfusion h2
        · simp only [scanName, hdl, hrec] at h
          rw [if_neg hv] at h
          simp only [List.cons_append, scanName, hdl, hrec]
          rw [if_neg hv]
          exact ih st st1 h
      | none =>
        simp only [scanName, hdl, hrec] at h
        split at h
        · rename_i x0 st' e heq
          injection h with h1 h2
          exact ScanOut.noConfusion h2
        · rename_i x0 st' cl heq
          by_cases hc : cl.contains n = true
          · rw [if_pos hc] at h
            injection h with h1 h2
            exact ScanOut.noConfusion h2
          · rw [if_neg hc] at h
            simp only [List.cons_append, scanName, hdl, hrec, heq]
            rw [if_neg hc]
            exact ih st' st1 h

theorem claimPhase_append_err (sl : List (Nat × Bool)) (e : CoreError)
    (n : Nat) (names2 : List Nat) :
    ∀ (names1 : List Nat) (st st1 st2 : SessionState)
      (cl : List (Nat × Nat)) (un : List Nat),
    claimPhase st sl names1 = (st1, .ok (cl, un)) →
    scanName st1 n sl = (st2, .genErr e) →
    claimPhase st sl (names1 ++ n :: names2) = (st2, .error e) := by
  intro names1
  induction names1 with
  | nil =>
    intro st st1 st2 cl un h hscan
    simp only [claimPhase] at h
    injection h with h1 h2
    subst h1
    simp only [List.nil_append, claimPhase, hscan]
  | cons n0 rest ih =>
    intro st st1 st2 cl un h hscan
    simp only [claimPhase] at h
    split at h
    · rename_i x0 st' e' heq
      injection h with h1 h2
      exact Except.noConfusion h2
    · rename_i x0 st' d heq
      split at h
      · rename_i x1 st'' e' heq2
        injection h with h1 h2
        exact Except.noConfusion h2
      · rename_i x1 st'' cl' un' heq2
        injection h with h1 h2
        subst h1
        simp only [List.cons_append, claimPhase, heq, List.append_eq]
        rw [ih st' st'' st2 cl' un' heq2 hscan]
    · rename_i x0 st' heq
      split at h
      · rename_i x1 st'' e' heq2
        injection h with h1 h2
        exact Except.noConfusion h2
      · rename_i x1 st'' cl' un' heq2
        injection h with h1 h2
        subst h1
        simp only [List.cons_append, claimPhase, heq, List.append_eq]
        rw [ih st' st'' st2 cl' un' heq2 hscan]

/-- C7: a generator error is propagated verbatim to the triggering
operation, wherever the failing generator is consulted: (i) a failing
generator at any position of a dylib's chain, reached with a non-empty set
of still-unclaimed names, aborts the chain consultation with exactly its
error; (ii) a `lookup_flags` call whose generator consultation errors
returns exactly that error instead of a flags map; (iii) the per-name scan
passes over search-list entries that neither claim nor error, so (iv) a
failing dylib at any search-list position whose earlier generators do not
claim the undefined name errors the scan with exactly the generator's
error; (v) the claim phase propagates the scan error of any requested name
reached after earlier names were claimed or unmatched without error; and
(vi) a lookup over any search list whose claim phase errors completes its
fresh query with exactly that error. -/
theorem C7_generator_error_propagation (e : CoreError) (dlId : Nat) :
    (∀ (gs1 gs2 : List GenBehavior) (rem : List Nat)
       (s s1 : SessionState) (cl : List Nat),
      runGenerators s dlId gs1 rem = (s1, .ok cl) →
      rem.filter (fun x => !cl.contains x) ≠ [] →
      runGenerators s dlId (gs1 ++ .genFail e :: gs2) rem
        = (s1, .error e)) ∧
    (∀ (st s1 : SessionState) (dl : Dylib) (names : List Nat),
      alookup dlId st.dylibs = some dl →
      runGenerators st dlId dl.generators
        (names.filter (fun n => (alookup n dl.symbols).isNone))
        = (s1, .error e) →
      (lookupFlags st dlId names).2 = .error e) ∧
    (∀ (n : Nat) (sl1 sl2 : List (Nat × Bool)) (st st1 : SessionState),
      scanName st n sl1 = (st1, .nomatch) →
      scanName st n (sl1 ++ sl2) = scanName st1 n sl2) ∧
    (∀ (n d : Nat) (b : Bool) (rest : List (Nat × Bool))
       (st s1 : SessionState) (dl : Dylib) (gs1 gs2 : List GenBehavior)
       (cl : List Nat),
      alookup d st.dylibs = some dl →
      alookup n dl.symbols = none →
      dl.generators = gs1 ++ .genFail e :: gs2 →
      runGenerators st d gs1 [n] = (s1, .ok cl) →
      cl.contains n = false →
      scanName st n ((d, b) :: rest) = (s1, .genErr e)) ∧
    (∀ (sl : List (Nat × Bool)) (names1 names2 : List Nat) (n : Nat)
       (st st1 st2 : SessionState) (cl : List (Nat × Nat)) (un : List Nat),
      claimPhase st sl names1 = (st1, .ok (cl, un)) →
      scanName st1 n sl = (st2, .genErr e) →
      claimPhase st sl (names1 ++ n :: names2) = (st2, .error e)) ∧
    (∀ (st st1 : SessionState) (sl : List (Nat × Bool)) (names : List Nat)
       (want : SymbolStage),
      claimPhase { st with nextQueryId := st.nextQueryId + 1 } sl names
        = (st1, .error e) →
      (lookup st sl names want).events =
        Event.queryCompleted st.nextQueryId (QueryResult.failure e)
          :: st1.events) := by
  refine ⟨?_, ?_, ?_, ?_, ?_, ?_⟩
  · exact fun gs1 gs2 rem s s1 cl h hne =>
      runGenerators_append_fail dlId e gs2 gs1 rem s s1 cl h hne
  · intro st s1 dl names hdl hrg
    simp only [lookupFlags, hdl, hrg]
  · exact fun n sl1 sl2 st st1 h => scanName_append n sl2 sl1 st st1 h
  · intro n d b rest st s1 dl gs1 gs2 cl hdl hund hgen hpre hcl
    have hrun : runGenerators st d dl.generators [n] = (s1, .error e) := by
      rw [hgen]
      refine runGenerators_append_fail d e gs2 gs1 [n] st s1 cl hpre ?_
      have hcl2 : n ∉ cl := by simpa using hcl
      simp [List.filter, hcl2]
    simp only [scanName, hdl, hund, hrun]
  · exact fun sl names1 names2 n st st1 st2 cl un h hscan =>
      claimPhase_append_err sl e n names2 names1 st st1 st2 cl un h hscan
  · intro st st1 sl names want hcp
    simp only [lookup, hcp]
    rfl

/-- Witness for C7: with GeneratorError 7 raised by a generator sitting
second in its dylib's chain, a flags lookup fails with that very error; and
with the failing dylib second on the search list, an asynchronous lookup
completes its query with that very error. -/
theorem C7_generator_error_propagation_witness :
    (lookupFlags c7bst 0 [fooN]).2 = .error (.generatorError 7) ∧
    (lookup c7cst [(0, false), (1, false)] [fooN] .ready).events =
      [Event.queryCompleted 0 (QueryResult.failure (.generatorError 7))]
    := by
  have h := C7_generator_error_propagation (.generatorError 7) 0
  refine ⟨?_, ?_⟩
  · exact h.2.1 c7bst c7bst ⟨[], [.installAbsolute [(barN, barEval)],
      .genFail (.generatorError 7)]⟩ [fooN] rfl
      (h.1 [.installAbsolute [(barN, barEval)]] [] [fooN] c7bst c7bst []
        rfl (by decide))
  · exact h.2.2.2.2.2 c7cst { c7cst with nextQueryId := 1 }
      [(0, false), (1, false)] [fooN] .ready rfl

/-! ### Claim C8 -/

/-- C8: during a lookup, each requested name is claimed by the first
search-list dylib holding a visible definition — a non-exported definition
being visible only when that entry's match-non-exported boolean is set — as
described by `specFirstVisibleDylib`, which is written from the spec's
words; and in the hidden-symbols scenario the non-exported Bar in JD is
skipped and the exported Bar in JD2 (at Qux's address) is the one
returned. -/
theorem C8_search_order_and_visibility :
    (∀ (st : SessionState) (n : Nat) (sl : List (Nat × Bool)),
      (∀ p ∈ sl, genFree st p.1 = true) →
      scanName st n sl = (st, scanOutOf (specFirstVisibleDylib st n sl))) ∧
    completionsOf c8st3 0 =
      [QueryResult.success [(fooN, fooEval), (barN, quxEval)]] := by
  constructor
  · intro st n sl
    induction sl with
    | nil => intro hg; rfl
    | cons p rest ih =>
      intro hg
      obtain ⟨d, b⟩ := p
      have hgd := hg (d, b) (List.mem_cons_self _ _)
      have hrest := ih (fun q hq => hg q (List.mem_cons_of_mem _ hq))
      cases hdl : alookup d st.dylibs with
      | none =>
        simp only [scanName, hdl, hrest]
        simp only [specFirstVisibleDylib, recordOf, hdl]
      | some dl =>
        have hgen : dl.generators = [] := by
          simp only [genFree, hdl] at hgd
          exact List.isEmpty_iff.mp hgd
        cases hrec : alookup n dl.symbols with
        | some r =>
          by_cases hv : visibleRec b r = true
          · simp only [scanName, hdl, hrec]
            rw [if_pos hv]
            simp only [specFirstVisibleDylib, recordOf, hdl, hrec]
            rw [if_pos hv]
            rfl
          · simp only [scanName, hdl, hrec]
            rw [if_neg hv]
            simp only [specFirstVisibleDylib, recordOf, hdl, hrec]
            rw [if_neg hv]
            exact hrest
        | none =>
          simp only [scanName, hdl, hrec, hgen, runGenerators]
          simp only [specFirstVisibleDylib, recordOf, hdl, hrec]
          simpa using hrest
  · decide

/-- Witness for C8 at the hidden-symbols scenario: the scan for Bar over
[(JD, false), (JD2, false)] claims in JD2, matching the spec-side
first-visible-dylib description. -/
theorem C8_search_order_and_visibility_witness :
    scanName c8st2 barN [(0, false), (1, false)] =
      (c8st2, ScanOut.claimedBy 1) :=
  (C8_search_order_and_visibility.1 c8st2 barN [(0, false), (1, false)]
    (by decide)).trans (by decide)

/-! ### Claim C10 -/

theorem completionsIn_append (a b : List Event) (q : Nat) :
    completionsIn (a ++ b) q = completionsIn a q ++ completionsIn b q := by
  simp [completionsIn, List.filterMap_append]

theorem completionsIn_nil_of_ne (q : Nat) (evs : List Event)
    (h : ∀ i r, Event.queryCompleted i r ∈ evs → i ≠ q) :
    completionsIn evs q = [] := by
  induction evs with
  | nil => rfl
  | cons ev t ih =>
    have ht := ih (fun i r hm => h i r (List.mem_cons_of_mem _ hm))
    cases ev with
    | queryCompleted i r =>
      have hne : (i == q) = false := by
        simp [h i r (List.mem_cons_self _ _)]
      simp only [completionsIn, List.filterMap_cons, hne] at ht ⊢
      simpa using ht
    | materializeInvoked m =>
      simp only [completionsIn, List.filterMap_cons] at ht ⊢
      exact ht
    | discarded m x =>
      simp only [completionsIn, List.filterMap_cons] at ht ⊢
      exact ht
    | muDestroyed m =>
      simp only [completionsIn, List.filterMap_cons] at ht ⊢
      exact ht

theorem completionsOf_tryFireQueries (s : SessionState) (q : Nat) :
    completionsOf (tryFireQueries s) q =
      completionsIn ((s.queries.filter (fun x => querySatisfied s x)).map
        (fun x => Event.queryCompleted x.qid
          (QueryResult.success (buildResult s x)))) q ++
      completionsIn s.events q := by
  unfold tryFireQueries completionsOf
  exact completionsIn_append _ _ _

theorem completionsIn_fired_nil (s : SessionState) (q : Nat)
    (l : List Query) (hl : ∀ x ∈ l, x.qid ≠ q) :
    completionsIn (l.map (fun x => Event.queryCompleted x.qid
      (QueryResult.success (buildResult s x)))) q = [] := by
  apply completionsIn_nil_of_ne
  intro i r hm
  obtain ⟨x, hx, hx2⟩ := List.mem_map.mp hm
  injection hx2 with h1 h2
  rw [← h1]
  exact hl x hx

/-- C10: an asynchronous lookup whose requested name set is empty invokes
its completion callback exactly once, immediately, with a successful empty
symbol map, for any search list and any required stage. -/
theorem completionsIn_cons_self (i : Nat) (r : QueryResult)
    (t : List Event) :
    completionsIn (Event.queryCompleted i r :: t) i
      = r :: completionsIn t i := by
  simp [completionsIn, List.filterMap_cons]

theorem C10_empty_lookup (st : SessionState) (sl : List (Nat × Bool))
    (want : SymbolStage) (h : wfQueryIds st) :
    completionsOf (lookup st sl [] want) st.nextQueryId
      = [QueryResult.success []] := by
  obtain ⟨hq, he⟩ := h
  have h1 : lookup st sl [] want
      = tryFireQueries (emptyLookupState st want) := rfl
  rw [h1, completionsOf_tryFireQueries]
  have hfilter : (emptyLookupState st want).queries.filter
      (fun x => querySatisfied (emptyLookupState st want) x) =
      (⟨st.nextQueryId, [], want⟩ : Query) :: st.queries.filter
        (fun x => querySatisfied (emptyLookupState st want) x) := by
    rw [show (emptyLookupState st want).queries =
      (⟨st.nextQueryId, [], want⟩ : Query) :: st.queries from rfl,
      List.filter_cons]
    simp [querySatisfied]
  rw [hfilter, List.map_cons]
  rw [show (Event.queryCompleted (⟨st.nextQueryId, [], want⟩ : Query).qid
      (QueryResult.success (buildResult (emptyLookupState st want)
        ⟨st.nextQueryId, [], want⟩))) = Event.queryCompleted st.nextQueryId
      (QueryResult.success []) from rfl]
  rw [show completionsIn (Event.queryCompleted st.nextQueryId
      (QueryResult.success []) :: (st.queries.filter (fun x =>
        querySatisfied (emptyLookupState st want) x)).map (fun x =>
        Event.queryCompleted x.qid (QueryResult.success (buildResult
          (emptyLookupState st want) x)))) st.nextQueryId
      = QueryResult.success [] :: completionsIn ((st.queries.filter (fun x =>
        querySatisfied (emptyLookupState st want) x)).map (fun x =>
        Event.queryCompleted x.qid (QueryResult.success (buildResult
          (emptyLookupState st want) x)))) st.nextQueryId from
    completionsIn_cons_self _ _ _]
  rw [completionsIn_fired_nil (emptyLookupState st want) st.nextQueryId
    (st.queries.filter (fun x => querySatisfied (emptyLookupState st want) x))
    (fun x hx => Nat.ne_of_lt (hq x (List.mem_of_mem_filter hx)))]
  rw [show (emptyLookupState st want).events = st.events from rfl]
  rw [completionsIn_nil_of_ne st.nextQueryId st.events
    (fun i r hm => Nat.ne_of_lt (he i r hm))]
  rfl

/-- Witness for C10: an empty lookup against the fresh session completes
query 0 exactly once with the empty success map. -/
theorem C10_empty_lookup_witness :
    completionsOf (lookup initState [(0, false)] [] .ready) 0
      = [QueryResult.success []] :=
  C10_empty_lookup initState [(0, false)] .ready
    ⟨fun q hq => by simp [initState] at hq,
     fun i r hm => by simp [initState] at hm⟩

/-! ### Claims C1, C2 and C9 (concrete scenario replays) -/

/-- C2: for Foo defined via an MU and an asynchronous Ready lookup with
callback C, C is not invoked before the MR's notify_resolved, nor between
notify_resolved and notify_emitted; once notify_emitted is called, C fires
with a success map sending Foo to the resolved address 0x1000. -/
theorem C2_basic_successful_lookup :
    completionsOf c2st2 0 = [] ∧
    completionsOf c2st3 0 = [] ∧
    completionsOf c2st4 0 = [QueryResult.success [(fooN, fooEval)]] := by
  decide

/-- C1: with Foo, Bar, Baz in one dylib, each defined by its own MU, and
the cyclic dependencies Foo→Bar, Bar→Baz, Baz→Foo installed through
add_dependencies_for_all (self-edges being filtered out): after the three
notify_resolved calls every Resolved-stage query completes successfully and
no Ready-stage query has completed; after two notify_emitted calls the
Ready queries still have not completed; and at the third notify_emitted all
three Ready queries complete successfully. -/
theorem C1_circular_dependency_readiness :
    depsOf c1st15 (0, fooN) = [(0, barN)] ∧
    depsOf c1st15 (0, barN) = [(0, bazN)] ∧
    depsOf c1st15 (0, bazN) = [(0, fooN)] ∧
    completionsOf c1st15 0 = [] ∧ completionsOf c1st15 2 = [] ∧
    completionsOf c1st15 4 = [] ∧
    completionsOf c1st18 0 = [QueryResult.success [(fooN, fooEval)]] ∧
    completionsOf c1st18 2 = [QueryResult.success [(barN, barEval)]] ∧
    completionsOf c1st18 4 = [QueryResult.success [(bazN, bazEval)]] ∧
    completionsOf c1st18 1 = [] ∧ completionsOf c1st18 3 = [] ∧
    completionsOf c1st18 5 = [] ∧
    completionsOf c1st20 1 = [] ∧ completionsOf c1st20 3 = [] ∧
    completionsOf c1st20 5 = [] ∧
    completionsOf c1st21 1 = [QueryResult.success [(fooN, fooEval)]] ∧
    completionsOf c1st21 3 = [QueryResult.success [(barN, barEval)]] ∧
    completionsOf c1st21 5 = [QueryResult.success [(bazN, bazEval)]] := by
  decide

/-- C9: with an absolute Foo and aliases Bar→Foo and Baz→Bar in one dylib,
a lookup for Bar and Baz succeeds and both names resolve to Foo's
address. -/
theorem C9_chained_alias_resolution :
    completionsOf c9st3 0 =
      [QueryResult.success
        [(barN, ⟨fooEval.address, expFlags⟩),
         (bazN, ⟨fooEval.address, expFlags⟩)]] := by
  decide

end OrcCore
